import Mathlib

/-!
# Verification of the protog parser generator (src/src/protog.cpp)

This file gives a shallow embedding of the protog schema-driven parser
generator and proves properties of it.  The embedding covers:

* the node-kind computation `getNodeTypeForProtoType` (protog.cpp:41-69);
* the parse-graph builder `Graph::parseMessageDesc` / `parseMessageDescRec`
  / `injectArrayNode` / `injectObjectNode` / `addChild`
  (protog.cpp:175-288), modelled as a pure recursive function over a
  descriptor tree, threading the state counter exactly as the source does;
* the category indexes populated by `Graph::addNodeToTypeLists`
  (protog.cpp:247-280);
* the per-event dispatch cases emitted by the `Printer`
  (protog.cpp:398-663), modelled as the abstract content of each emitted
  `case` label;
* the behaviour of the emitted runtime API (`printApiImpl`,
  protog.cpp:665-759) as a transition system;
* the top-level control flow of `main` (protog.cpp:783-806).

Protobuf descriptors are external inputs; they are modelled as finite
trees (`MsgD`, `FieldD`), which covers every schema the C++ walk
terminates on.
-/

set_option autoImplicit false

namespace Protog

/-- Node kinds of the parse graph, mirroring `enum class NodeType`
(protog.cpp:31-39). -/
inductive NodeType : Type where
  | BOOL
  | LONG
  | DOUBLE
  | STRING
  | OUTSIDE_OBJECT
  | INSIDE_OBJECT
  | ARRAY
  deriving DecidableEq, Repr

/-- Protobuf wire types, mirroring `google::protobuf::FieldDescriptor::Type`.
The constructors carry the same names (and, via `protoTag`, the same numeric
values) as the protobuf enum. -/
inductive PType : Type where
  | tDOUBLE
  | tFLOAT
  | tINT64
  | tUINT64
  | tINT32
  | tFIXED64
  | tFIXED32
  | tBOOL
  | tSTRING
  | tGROUP
  | tMESSAGE
  | tBYTES
  | tUINT32
  | tENUM
  | tSFIXED32
  | tSFIXED64
  | tSINT32
  | tSINT64
  deriving DecidableEq, Repr

/-- The numeric value of each `FieldDescriptor::Type` enumerator, used by the
source in `std::to_string(static_cast<int>(type))` (protog.cpp:67). -/
def protoTag : PType → Nat
  | .tDOUBLE => 1
  | .tFLOAT => 2
  | .tINT64 => 3
  | .tUINT64 => 4
  | .tINT32 => 5
  | .tFIXED64 => 6
  | .tFIXED32 => 7
  | .tBOOL => 8
  | .tSTRING => 9
  | .tGROUP => 10
  | .tMESSAGE => 11
  | .tBYTES => 12
  | .tUINT32 => 13
  | .tENUM => 14
  | .tSFIXED32 => 15
  | .tSFIXED64 => 16
  | .tSINT32 => 17
  | .tSINT64 => 18

/-- Mirrors `FieldDescriptor::type_name()` for non-message types (diagnostic only). -/
def protoTypeName : PType → String
  | .tDOUBLE => ("double")
  | .tFLOAT => ("float")
  | .tINT64 => ("int64")
  | .tUINT64 => ("uint64")
  | .tINT32 => ("int32")
  | .tFIXED64 => ("fixed64")
  | .tFIXED32 => ("fixed32")
  | .tBOOL => ("bool")
  | .tSTRING => ("string")
  | .tGROUP => ("group")
  | .tMESSAGE => ("message")
  | .tBYTES => ("bytes")
  | .tUINT32 => ("uint32")
  | .tENUM => ("enum")
  | .tSFIXED32 => ("sfixed32")
  | .tSFIXED64 => ("sfixed64")
  | .tSINT32 => ("sint32")
  | .tSINT64 => ("sint64")

/-- Mirrors `getNodeTypeForProtoType` (protog.cpp:41-69).  Unsupported wire types
(`TYPE_UINT64`, `TYPE_BYTES` and the `default:` case, which in the protobuf
enum is exactly `TYPE_GROUP`) throw
`std::runtime_error("Unsupported protobuf type " + std::to_string(tag))`;
the throw is modelled as `Except.error` carrying the same message. -/
def getNodeTypeForProtoType : PType → Except String NodeType
  | .tBOOL => .ok .BOOL
  | .tINT32 => .ok .LONG
  | .tINT64 => .ok .LONG
  | .tUINT32 => .ok .LONG
  | .tFIXED32 => .ok .LONG
  | .tFIXED64 => .ok .LONG
  | .tSFIXED32 => .ok .LONG
  | .tSFIXED64 => .ok .LONG
  | .tSINT32 => .ok .LONG
  | .tSINT64 => .ok .LONG
  | .tFLOAT => .ok .DOUBLE
  | .tDOUBLE => .ok .DOUBLE
  | .tSTRING => .ok .STRING
  | .tMESSAGE => .ok .OUTSIDE_OBJECT
  | .tENUM => .ok .LONG
  | t => .error (("Unsupported protobuf type ") ++ toString (protoTag t))

/-- Holds iff `getNodeTypeForProtoType` succeeds on the type. -/
def supportedType (t : PType) : Bool :=
  match getNodeTypeForProtoType t with
  | .ok _ => true
  | .error _ => false

mutual
/-- A message descriptor (`google::protobuf::Descriptor`): a name and the
declared fields in declaration order. -/
inductive MsgD : Type where
  | mk (name : String) (fields : List FieldD)

/-- A field descriptor (`google::protobuf::FieldDescriptor`): local name, wire
type, `is_repeated()`, `is_optional()`, and `message_type()` (present exactly
for message-typed fields in well-formed descriptor pools). -/
inductive FieldD : Type where
  | mk (name : String) (ptype : PType) (isRepeated : Bool) (isOptional : Bool)
      (msgType : Option MsgD)
end

def MsgD.mname : MsgD → String
  | .mk n _ => n

def MsgD.mfields : MsgD → List FieldD
  | .mk _ fs => fs

def FieldD.fname : FieldD → String
  | .mk n _ _ _ _ => n

def FieldD.fptype : FieldD → PType
  | .mk _ t _ _ _ => t

def FieldD.frep : FieldD → Bool
  | .mk _ _ r _ _ => r

def FieldD.fopt : FieldD → Bool
  | .mk _ _ _ o _ => o

def FieldD.fmsg : FieldD → Option MsgD
  | .mk _ _ _ _ m => m

/-- The data of a node's `field` back-reference (`const FieldDescriptor *`).
Two nodes referencing the same schema field carry equal `FieldInfo`. -/
structure FieldInfo : Type where
  fname : String
  ptype : PType
  isRepeated : Bool
  isOptional : Bool
  deriving DecidableEq, Repr

/-- A parse-graph node (`struct Node`, protog.cpp:97-116).  The C++ `parent`
up-pointer is not stored; it is recovered by `flattenNode` below, which
passes the parent and grandparent down while traversing, exactly as the
emitter follows `node.parent` / `node.parent->parent`.  The `desc`
(owner) back-reference feeds only the emitted C++ type names and is not
modelled. -/
inductive NodeT : Type where
  | mk (type : NodeType) (state : Nat) (name : String) (full_name : String)
      (type_name : String) (field : Option FieldInfo) (children : List NodeT)

def nodeType : NodeT → NodeType
  | .mk t _ _ _ _ _ _ => t

def nodeState : NodeT → Nat
  | .mk _ s _ _ _ _ _ => s

def nodeName : NodeT → String
  | .mk _ _ n _ _ _ _ => n

def nodeFullName : NodeT → String
  | .mk _ _ _ fn _ _ _ => fn

def nodeField : NodeT → Option FieldInfo
  | .mk _ _ _ _ _ fi _ => fi

def childrenOf : NodeT → List NodeT
  | .mk _ _ _ _ _ _ cs => cs

/-- Mirrors `getTypeNameForFieldDesc` (protog.cpp:71-74). -/
def getTypeNameForFieldDesc (pt : PType) (mty : Option MsgD) : String :=
  match pt, mty with
  | .tMESSAGE, some m => m.mname
  | .tMESSAGE, none => ("")
  | _, _ => protoTypeName pt

mutual
/-- The per-field body of `Graph::parseMessageDescRec` (protog.cpp:190-221)
together with `Graph::addChild` (protog.cpp:282-288),
`Graph::injectArrayNode` (protog.cpp:223-233) and `Graph::injectObjectNode`
(protog.cpp:235-245).  `pfx` is the current node's `full_name`; `k` is the
value of `Graph::stateCounter` before the field is processed (`addChild`
assigns `state = ++stateCounter`); the result is the child subtree for this
field plus the updated counter.  A thrown `std::runtime_error` is modelled
as `Except.error`. -/
def parseFieldDescRec (pfx : String) (k : Nat) (f : FieldD) :
    Except String (NodeT × Nat) :=
  match f with
  | .mk nm pt rep opt mty =>
    match getNodeTypeForProtoType pt with
    | .error e => .error e
    | .ok ty =>
      let fi : FieldInfo := ⟨nm, pt, rep, opt⟩
      if rep = false then
        -- child.type = type; child.full_name = node.full_name + child.name
        if ty = NodeType.OUTSIDE_OBJECT then
          -- injectObjectNode: one INSIDE_OBJECT child, full_name + ".",
          -- same name and field as the key node; then recurse into it
          match mty with
          | some (MsgD.mk mn mfs) =>
            match parseMessageDescRec (pfx ++ nm ++ (".")) (k + 2) mfs with
            | .error e => .error e
            | .ok (cs, k2) =>
              .ok (NodeT.mk NodeType.OUTSIDE_OBJECT (k + 1) nm (pfx ++ nm) mn (some fi)
                    [NodeT.mk NodeType.INSIDE_OBJECT (k + 2) nm (pfx ++ nm ++ (".")) mn
                      (some fi) cs],
                  k2)
          | none =>
            -- fieldDesc.message_type() is never null when type() == TYPE_MESSAGE;
            -- the C++ would dereference null here
            .error ("internal: message-typed field without a message descriptor")
        else
          .ok (NodeT.mk ty (k + 1) nm (pfx ++ nm) (getTypeNameForFieldDesc pt mty)
                (some fi) [],
              k + 1)
      else
        -- child.type = ARRAY; child.type_name = "[" + tn + "]";
        -- injectArrayNode: element child, full_name = child.full_name + "[]",
        -- element type = scalar/key type of the field
        if ty = NodeType.OUTSIDE_OBJECT then
          match mty with
          | some (MsgD.mk mn mfs) =>
            match parseMessageDescRec (pfx ++ nm ++ ("[]") ++ (".")) (k + 3) mfs with
            | .error e => .error e
            | .ok (cs, k2) =>
              .ok (NodeT.mk NodeType.ARRAY (k + 1) nm (pfx ++ nm) (("[") ++ mn ++ ("]"))
                    (some fi)
                    [NodeT.mk NodeType.OUTSIDE_OBJECT (k + 2) nm (pfx ++ nm ++ ("[]")) mn
                      (some fi)
                      [NodeT.mk NodeType.INSIDE_OBJECT (k + 3) nm
                        (pfx ++ nm ++ ("[]") ++ (".")) mn (some fi) cs]],
                  k2)
          | none =>
            .error ("internal: message-typed field without a message descriptor")
        else
          .ok (NodeT.mk NodeType.ARRAY (k + 1) nm (pfx ++ nm)
                (("[") ++ getTypeNameForFieldDesc pt mty ++ ("]")) (some fi)
                [NodeT.mk ty (k + 2) nm (pfx ++ nm ++ ("[]"))
                  (getTypeNameForFieldDesc pt mty) (some fi) []],
              k + 2)

/-- The field loop of `Graph::parseMessageDescRec` (protog.cpp:191): process
the declared fields in declaration order, threading the state counter. -/
def parseMessageDescRec (pfx : String) (k : Nat) (fs : List FieldD) :
    Except String (List NodeT × Nat) :=
  match fs with
  | [] => .ok ([], k)
  | f :: rest =>
    match parseFieldDescRec pfx k f with
    | .error e => .error e
    | .ok (n, k1) =>
      match parseMessageDescRec pfx k1 rest with
      | .error e => .error e
      | .ok (ns, k2) => .ok (n :: ns, k2)
end

/-- Mirrors `Graph::parseMessageDesc` (protog.cpp:175-188) after the constructor has
assigned `root.state = ++stateCounter` (= 1, protog.cpp:137): the root is an
`INSIDE_OBJECT` node named "." with `full_name` "." and no field
back-reference. -/
def parseMessageDesc (m : MsgD) : Except String NodeT :=
  match m with
  | .mk mn mfs =>
    match parseMessageDescRec (".") 1 mfs with
    | .error e => .error e
    | .ok (cs, _) => .ok (NodeT.mk NodeType.INSIDE_OBJECT 1 (".") (".") mn none cs)

/-- The data the emitter reads through a `Node *` pointer: own state, kind,
names and field back-reference.  Used for the `parent` / `parent->parent`
up-pointers and for the entries of `children`. -/
structure NRef : Type where
  state : Nat
  type : NodeType
  name : String
  full_name : String
  field : Option FieldInfo
  deriving DecidableEq, Repr

def nref : NodeT → NRef
  | .mk t s nm fn _ fi _ => ⟨s, t, nm, fn, fi⟩

/-- A node as the emitter sees it: its own attributes together with what the
C++ reaches through `node.parent`, `node.parent->parent` and
`node.children`. -/
structure ENode : Type where
  type : NodeType
  state : Nat
  name : String
  full_name : String
  field : Option FieldInfo
  parent : Option NRef
  gparent : Option NRef
  children : List NRef
  deriving DecidableEq, Repr

def toENode (n : NodeT) (p gp : Option NRef) : ENode :=
  match n with
  | .mk t s nm fn _ fi cs => ⟨t, s, nm, fn, fi, p, gp, cs.map nref⟩

mutual
/-- Pre-order flattening of the parse graph, recovering the `parent` and
`parent->parent` pointers of each node.  The resulting list order is exactly
the order in which `Graph::addNodeToTypeLists` is invoked (once per node,
at node creation: root in `parseMessageDesc`, each child directly in
`parseMessageDescRec` / `injectArrayNode` / `injectObjectNode` before its
own descendants, protog.cpp:185,205,213,231,243), i.e. the order of
`Graph::all_nodes`. -/
def flattenNode (p gp : Option NRef) : NodeT → List ENode
  | .mk t s nm fn _ fi cs =>
    ⟨t, s, nm, fn, fi, p, gp, cs.map nref⟩ ::
      flattenList (some ⟨s, t, nm, fn, fi⟩) p cs

def flattenList (p gp : Option NRef) : List NodeT → List ENode
  | [] => []
  | c :: cs => flattenNode p gp c ++ flattenList p gp cs
end

/-- The list `Graph::all_nodes` in push order. -/
def allNodes (root : NodeT) : List ENode := flattenNode none none root

/-- The `NRef` view of an already-flattened node. -/
def enodeRef (e : ENode) : NRef := ⟨e.state, e.type, e.name, e.full_name, e.field⟩

/-! ## Category indexes (`Graph::addNodeToTypeLists`, protog.cpp:247-280)

`addNodeToTypeLists` is called exactly once per node, in `all_nodes` push
order, and in that single call pushes the node onto `all_nodes` and onto the
category lists selected by `node.field` / `node.type`.  Each category list
is therefore the subsequence of `all_nodes` whose members satisfy the
corresponding push condition, i.e. a `List.filter` of `all_nodes`. -/

/-- Push condition of `Graph::null_nodes`:
`node.field && node.field->is_optional()` (protog.cpp:250). -/
def isNullableNode (e : ENode) : Bool :=
  match e.field with
  | some f => f.isOptional
  | none => false

/-- Push condition of `Graph::bool_nodes` (protog.cpp:254). -/
def isBoolNode (e : ENode) : Bool := e.type == NodeType.BOOL

/-- Push condition of `Graph::long_nodes`: `LONG` nodes, plus `BOOL` nodes
(hack to allow 1/0 as true/false, protog.cpp:256-257) and `DOUBLE` nodes
(hack to allow ints as doubles, protog.cpp:264-265). -/
def isLongNode (e : ENode) : Bool :=
  e.type == NodeType.BOOL || e.type == NodeType.LONG || e.type == NodeType.DOUBLE

/-- Push condition of `Graph::double_nodes` (protog.cpp:262). -/
def isDoubleNode (e : ENode) : Bool := e.type == NodeType.DOUBLE

/-- Push condition of `Graph::string_nodes` (protog.cpp:267). -/
def isStringNode (e : ENode) : Bool := e.type == NodeType.STRING

/-- Push condition of `Graph::object_nodes` (protog.cpp:270). -/
def isObjectNode (e : ENode) : Bool := e.type == NodeType.INSIDE_OBJECT

/-- Push condition of `Graph::key_nodes` (protog.cpp:273). -/
def isKeyNode (e : ENode) : Bool := e.type == NodeType.OUTSIDE_OBJECT

/-- Push condition of `Graph::array_nodes` (protog.cpp:276). -/
def isArrayNode (e : ENode) : Bool := e.type == NodeType.ARRAY

def null_nodes (ns : List ENode) : List ENode := ns.filter isNullableNode

def bool_nodes (ns : List ENode) : List ENode := ns.filter isBoolNode

def long_nodes (ns : List ENode) : List ENode := ns.filter isLongNode

def double_nodes (ns : List ENode) : List ENode := ns.filter isDoubleNode

def string_nodes (ns : List ENode) : List ENode := ns.filter isStringNode

def object_nodes (ns : List ENode) : List ENode := ns.filter isObjectNode

def key_nodes (ns : List ENode) : List ENode := ns.filter isKeyNode

def array_nodes (ns : List ENode) : List ENode := ns.filter isArrayNode

/-! ## Emitted dispatch cases

Each `printXxxStateImpl` member of `Printer` writes one `case` label of the
emitted switch; the definitions below give the abstract content of that
case (label, transition target, message-mutation performed).  The C++ type
casts (`static_cast<...cpp_type...>`) are cosmetic and not modelled. -/

/-- Reads `node.parent->state`.  Every node reached through a category list that
uses the parent pointer carries a `field` back-reference, and every node
with a `field` has a parent (only the root has neither), so the `.getD 0`
default is never consulted on built graphs. -/
def parentStateD (e : ENode) : Nat :=
  match e.parent with
  | some p => p.state
  | none => 0

/-- Reads `node.field->is_repeated()` (the default is never consulted: every emitted
scalar case belongs to a node carrying a field back-reference). -/
def fieldRepeated (e : ENode) : Bool :=
  match e.field with
  | some f => f.isRepeated
  | none => false

/-- Tests `node.field->type() == FieldDescriptor::TYPE_ENUM` (protog.cpp:448). -/
def fieldIsEnum (e : ENode) : Bool :=
  match e.field with
  | some f => f.ptype == PType.tENUM
  | none => false

/-- One emitted `case` of the null handler (`printNullStateImpl`,
protog.cpp:414-420): at `location == state`, call
`clear_<clearName>()` on the top-of-stack message and set
`location = node.parent->state`. -/
structure NullCase : Type where
  state : Nat
  clearName : String
  newLoc : Nat
  deriving DecidableEq, Repr

def printNullStateImpl (e : ENode) : NullCase :=
  ⟨e.state, e.name, parentStateD e⟩

/-- The emitted null handler switch (`printNullImpl`, protog.cpp:398-412):
one case per member of `null_nodes`; any other location is a fatal
structural error (`exit(1)`). -/
def printNullImpl (ns : List ENode) : List NullCase :=
  (null_nodes ns).map printNullStateImpl

/-- One emitted `case` of a scalar (bool/integer/double) handler
(`printPodStateImpl`, protog.cpp:438-459): call `add_<name>` (repeated) or
`set_<name>` (else), casting through the enum type when the field is
enum-typed; for non-repeated fields set `location = node.parent->state`
(`newLoc = none` models the repeated case where location is left for the
closing bracket to clean up). -/
structure PodCase : Type where
  state : Nat
  verbAdd : Bool
  enumCast : Bool
  newLoc : Option Nat
  deriving DecidableEq, Repr

def printPodStateImpl (e : ENode) : PodCase :=
  ⟨e.state, fieldRepeated e, fieldIsEnum e,
    if fieldRepeated e then none else some (parentStateD e)⟩

def printBooleanImpl (ns : List ENode) : List PodCase :=
  (bool_nodes ns).map printPodStateImpl

def printIntegerImpl (ns : List ENode) : List PodCase :=
  (long_nodes ns).map printPodStateImpl

def printDoubleImpl (ns : List ENode) : List PodCase :=
  (double_nodes ns).map printPodStateImpl

/-- One emitted `case` of the string handler (`printStringStateImpl`,
protog.cpp:483-492): obtain the target string via `add_<name>` (repeated)
or `mutable_<name>` (else); for non-repeated fields set
`location = node.parent->state`. -/
structure StrCase : Type where
  state : Nat
  verbAdd : Bool
  newLoc : Option Nat
  deriving DecidableEq, Repr

def printStringStateImpl (e : ENode) : StrCase :=
  ⟨e.state, fieldRepeated e,
    if fieldRepeated e then none else some (parentStateD e)⟩

def printStringImpl (ns : List ENode) : List StrCase :=
  (string_nodes ns).map printStringStateImpl

/-- One emitted `case` of the start_map handler (`printMapStartStateImpl`,
protog.cpp:510-525).  For the root: label 0, push `&state.req` (assert the
stack was empty).  Otherwise: label `node.parent->state`, push
`add_<name>()` (repeated) or `mutable_<name>()`; both set
`location = node.state`. -/
structure MapStartCase : Type where
  label : Nat
  newLoc : Nat
  rootPush : Bool
  verbAdd : Bool
  subName : String
  deriving DecidableEq, Repr

def printMapStartStateImpl (e : ENode) : MapStartCase :=
  match e.parent with
  | none => ⟨0, e.state, true, false, ("")⟩
  | some p => ⟨p.state, e.state, false, fieldRepeated e, e.name⟩

def printMapStartImpl (ns : List ENode) : List MapStartCase :=
  (object_nodes ns).map printMapStartStateImpl

/-- One inner `case` of the map_key dispatch (`printMapKeyStateImpl`,
protog.cpp:545-559): the label is the generate-time hash of the child's
key, the transition target is the child's state.  `h` models
`std::hash<std::string>` (implementation-defined). -/
structure KeyCase : Type where
  hashLabel : Nat
  target : Nat
  deriving DecidableEq, Repr

/-- The emitted outer `case` for one `INSIDE_OBJECT` node: switch on the key
hash over the node's children.  The generator emits one inner case per
child, with no collision check of the hash labels. -/
def printMapKeyStateImpl (h : String → Nat) (e : ENode) : Nat × List KeyCase :=
  (e.state, e.children.map fun c => ⟨h c.name, c.state⟩)

/-- The emitted map_key handler (`printMapKeyImpl`, protog.cpp:527-543): one
outer case per member of `object_nodes`; unknown keys and unlisted
locations are fatal (`exit(1)`).  Emission itself is total: the printer has
no failure path. -/
def printMapKeyImpl (h : String → Nat) (ns : List ENode) : List (Nat × List KeyCase) :=
  (object_nodes ns).map (printMapKeyStateImpl h)

/-- One emitted `case` of the end_map handler (`printMapEndStateImpl`,
protog.cpp:580-599).
`closeRoot`: `location = 0; msgStack.pop_back(); assert(msgStack.empty())`.
`closeInner newLoc`: `location = newLoc; msgStack.pop_back()`. -/
inductive EndMapCase : Type where
  | closeRoot (state : Nat)
  | closeInner (state : Nat) (newLoc : Nat)
  deriving DecidableEq, Repr

/-- Mirrors `printMapEndStateImpl` (protog.cpp:580-599): if
`!node.parent || !node.parent->parent`, emit the root-closing case;
otherwise set `location = node.parent->state` when
`node.parent->parent->type == NodeType::ARRAY`, else
`location = node.parent->parent->state`, and pop. -/
def printMapEndStateImpl (e : ENode) : EndMapCase :=
  match e.parent, e.gparent with
  | none, _ => .closeRoot e.state
  | some _, none => .closeRoot e.state
  | some p, some g =>
    .closeInner e.state (if g.type = NodeType.ARRAY then p.state else g.state)

/-- The emitted end_map handler (`printMapEndImpl`, protog.cpp:561-578):
before the switch, `if (state.config.checkInitialized)
state.msgStack.back()->CheckInitialized();`; then one case per member of
`object_nodes`. -/
def printMapEndImpl (ns : List ENode) : List EndMapCase :=
  (object_nodes ns).map printMapEndStateImpl

/-- Reads `node.children[0]->state` (the C++ asserts `children.size() == 1`). -/
def childHeadState (e : ENode) : Nat :=
  match e.children with
  | c :: _ => c.state
  | [] => 0

/-- One emitted `case` of the start_array handler
(`printArrayStartStateImpl`, protog.cpp:617-622): at `location == state`
of the array node, `location = children[0]->state`. -/
structure ArrStartCase : Type where
  label : Nat
  newLoc : Nat
  deriving DecidableEq, Repr

def printArrayStartStateImpl (e : ENode) : ArrStartCase :=
  ⟨e.state, childHeadState e⟩

def printArrayStartImpl (ns : List ENode) : List ArrStartCase :=
  (array_nodes ns).map printArrayStartStateImpl

/-- One emitted `case` of the end_array handler (`printArrayEndStateImpl`,
protog.cpp:640-647): the label is the element state `children[0]->state`,
the target `node.parent->state`. -/
structure ArrEndCase : Type where
  label : Nat
  newLoc : Nat
  deriving DecidableEq, Repr

def printArrayEndStateImpl (e : ENode) : ArrEndCase :=
  ⟨childHeadState e, parentStateD e⟩

def printArrayEndImpl (ns : List ENode) : List ArrEndCase :=
  (array_nodes ns).map printArrayEndStateImpl

/-! ## Top-level control flow (`main`, protog.cpp:783-806)

`main` checks the argument count (`exit(1)` with a usage message on
stderr), constructs the `Graph` (whose constructor and
`parseMessageDesc` throw `std::runtime_error` on failure), and runs the
printer.  There is no try/catch anywhere: a thrown exception propagates
out of `main`, which in C++ calls `std::terminate`/`abort` — the process
is killed by SIGABRT, it does not perform a normal exit with code 1.
`Printer::print` (protog.cpp:303-318) never checks the result of
`fopen(..., "w")`: if opening an output file fails, the emitted
`fprintf(NULL, ...)` calls are undefined behaviour, not a diagnosed
failure. -/

/-- Outcome of the external schema-loading steps in the `Graph` constructor
(protog.cpp:136-173): `open(2)`, `Parser::Parse`,
`DescriptorPool::BuildFile`, `FindMessageTypeByName`. -/
inductive LoadOutcome : Type where
  | openFail
  | parseFail
  | buildFail
  | msgNotFound
  | loaded (m : MsgD)

/-- How the generator process ends. -/
inductive ProcOutcome : Type where
  | exited (code : Nat)
  | abortedUncaught (what : String)
  | undefinedBehavior (what : String)
  deriving DecidableEq, Repr

/-- The throwing checks of the `Graph` constructor (protog.cpp:136-173),
with the exact `std::runtime_error` message strings of the source. -/
def graphCtor (fname msgName : String) (lo : LoadOutcome) : Except String MsgD :=
  match lo with
  | .openFail => .error (("Unable to open proto file ") ++ fname)
  | .parseFail => .error (("Unable to parse proto file ") ++ fname)
  | .buildFail => .error (("Unable to load proto file ") ++ fname)
  | .msgNotFound => .error (("Unable to find message type ") ++ msgName)
  | .loaded m => .ok m

/-- Mirrors `main` (protog.cpp:783-806).  `argc ≠ 4` prints usage and `exit(1)`.
Any `std::runtime_error` thrown by the `Graph` constructor or by
`parseMessageDesc` is uncaught (no try/catch in the source) and aborts the
process.  On the success path the printer runs; a failed `fopen` is never
checked, so the subsequent `fprintf(NULL, ...)` is undefined behaviour;
otherwise `main` returns 0. -/
def mainImpl (argc : Nat) (fname msgName : String) (lo : LoadOutcome)
    (headerOpens sourceOpens : Bool) : ProcOutcome :=
  if argc ≠ 4 then ProcOutcome.exited 1
  else
    match graphCtor fname msgName lo with
    | .error msg => .abortedUncaught msg
    | .ok m =>
      match parseMessageDesc m with
      | .error msg => .abortedUncaught msg
      | .ok _ =>
        if headerOpens = false then
          .undefinedBehavior ("fprintf to NULL FILE star for the emitted header")
        else if sourceOpens = false then
          .undefinedBehavior ("fprintf to NULL FILE star for the emitted source")
        else .exited 0

/-! ## Runtime semantics of the emitted parser

The emitted source defines a state struct (`printTypeDefinition`,
protog.cpp:364-383) holding a config (`checkInitialized`), the `location`
counter (initially 0) and the object stack, and an API
(`printApiImpl`, protog.cpp:665-759).  The SAX callbacks dispatch on
`location` over the emitted case tables; a location with no case prints a
diagnostic and terminates the process (modelled as `none`).  Message
mutation is abstracted to the stack depth; `location` follows the emitted
cases exactly. -/

inductive SaxEvent : Type where
  | enull
  | ebool
  | einteger
  | edouble
  | estring
  | emapStart
  | emapKey (key : String)
  | emapEnd
  | earrayStart
  | earrayEnd

/-- All emitted dispatch tables of one generated parser. -/
structure RunTables : Type where
  nullCases : List NullCase
  boolCases : List PodCase
  intCases : List PodCase
  doubleCases : List PodCase
  strCases : List StrCase
  mapStartCases : List MapStartCase
  mapKeyCases : List (Nat × List KeyCase)
  mapEndCases : List EndMapCase
  arrStartCases : List ArrStartCase
  arrEndCases : List ArrEndCase

/-- The tables the generator emits for a graph (`printSourceImpl`,
protog.cpp:385-396), with `h` the `std::hash<std::string>` instance. -/
def tablesOf (h : String → Nat) (root : NodeT) : RunTables :=
  ⟨printNullImpl (allNodes root), printBooleanImpl (allNodes root),
    printIntegerImpl (allNodes root), printDoubleImpl (allNodes root),
    printStringImpl (allNodes root), printMapStartImpl (allNodes root),
    printMapKeyImpl h (allNodes root), printMapEndImpl (allNodes root),
    printArrayStartImpl (allNodes root), printArrayEndImpl (allNodes root)⟩

/-- The emitted `<t>_parser_config_s`: `bool checkInitialized`
(protog.cpp:365-367). -/
structure ParserConfig : Type where
  checkInit : Bool
  deriving DecidableEq, Repr

/-- The emitted `<t>_parser_state_s` (protog.cpp:369-381): config,
`location` (initially 0) and the object stack (abstracted to its depth).
The yajl handle and the target message reference are external. -/
structure ParserState : Type where
  config : ParserConfig
  location : Nat
  msgStackDepth : Nat
  deriving DecidableEq, Repr

def endMapLabel : EndMapCase → Nat
  | .closeRoot s => s
  | .closeInner s _ => s

/-- Whether the emitted end_map callback invokes
`msgStack.back()->CheckInitialized()`: it does exactly when
`state.config.checkInitialized` holds (protog.cpp:564-566). -/
def mapEndRunsInitCheck (s : ParserState) : Bool := s.config.checkInit

/-- One emitted SAX callback firing in state `s` (protog.cpp:398-663).
`none` models the `default:` branches that print a diagnostic and
`exit(1)`.  No callback ever touches `state.config`. -/
def stepEvent (h : String → Nat) (tb : RunTables) (ev : SaxEvent)
    (s : ParserState) : Option ParserState :=
  match ev with
  | .enull =>
    match tb.nullCases.find? (fun c => c.state == s.location) with
    | some c => some { s with location := c.newLoc }
    | none => none
  | .ebool =>
    match tb.boolCases.find? (fun c => c.state == s.location) with
    | some c => some { s with location := c.newLoc.getD s.location }
    | none => none
  | .einteger =>
    match tb.intCases.find? (fun c => c.state == s.location) with
    | some c => some { s with location := c.newLoc.getD s.location }
    | none => none
  | .edouble =>
    match tb.doubleCases.find? (fun c => c.state == s.location) with
    | some c => some { s with location := c.newLoc.getD s.location }
    | none => none
  | .estring =>
    match tb.strCases.find? (fun c => c.state == s.location) with
    | some c => some { s with location := c.newLoc.getD s.location }
    | none => none
  | .emapStart =>
    match tb.mapStartCases.find? (fun c => c.label == s.location) with
    | some c => some { s with location := c.newLoc, msgStackDepth := s.msgStackDepth + 1 }
    | none => none
  | .emapKey key =>
    match tb.mapKeyCases.find? (fun c => c.1 == s.location) with
    | some c =>
      match c.2.find? (fun kc => kc.hashLabel == h key) with
      | some kc => some { s with location := kc.target }
      | none => none
    | none => none
  | .emapEnd =>
    match tb.mapEndCases.find? (fun c => endMapLabel c == s.location) with
    | some (.closeRoot _) =>
      some { s with location := 0, msgStackDepth := s.msgStackDepth - 1 }
    | some (.closeInner _ l) =>
      some { s with location := l, msgStackDepth := s.msgStackDepth - 1 }
    | none => none
  | .earrayStart =>
    match tb.arrStartCases.find? (fun c => c.label == s.location) with
    | some c => some { s with location := c.newLoc }
    | none => none
  | .earrayEnd =>
    match tb.arrEndCases.find? (fun c => c.label == s.location) with
    | some c => some { s with location := c.newLoc }
    | none => none

/-- The operations a caller of the emitted API can perform on a live parser
state after `init`: feed bytes (each decoded SAX event fires a callback),
`reset` (clears location, stack and target message, protog.cpp:376-380),
and `get_error` / `free_error` (which only touch the tokenizer).
`free` destroys the state and ends the session. -/
inductive ApiOp : Type where
  | sax (ev : SaxEvent)
  | reset
  | getErrorOp
  | freeErrorOp

def stepOp (h : String → Nat) (tb : RunTables) (op : ApiOp) (s : ParserState) :
    Option ParserState :=
  match op with
  | .sax ev => stepEvent h tb ev s
  | .reset => some { s with location := 0, msgStackDepth := 0 }
  | .getErrorOp => some s
  | .freeErrorOp => some s

/-- The state `<t>_parser_init` returns (protog.cpp:687-700):
`state->config.checkInitialized = true;` on a fresh state with
`location = 0` and an empty stack.  `easy` (protog.cpp:666-685) creates
its state through this same `init`. -/
def initParserState : ParserState := ⟨⟨true⟩, 0, 0⟩

def runOps (h : String → Nat) (tb : RunTables) :
    List ApiOp → ParserState → Option ParserState
  | [], s => some s
  | op :: ops, s =>
    match stepOp h tb op s with
    | some s1 => runOps h tb ops s1
    | none => none

/-! ## Structural predicates used by the invariant proofs -/

mutual
/-- The states of a subtree in pre-order (creation order). -/
def statesOf : NodeT → List Nat
  | .mk _ s _ _ _ _ cs => s :: statesOfList cs

def statesOfList : List NodeT → List Nat
  | [] => []
  | c :: cs => statesOf c ++ statesOfList cs
end

/-- Local shape facts the builder establishes at one node: the field
back-reference (if any) carries the node's name; `ARRAY` nodes have exactly
the one element child injected by `injectArrayNode` (same name and field,
`full_name` extended by `[]`); `OUTSIDE_OBJECT` nodes have exactly the one
`INSIDE_OBJECT` child injected by `injectObjectNode` (same name and field,
`full_name` extended by `.`); children of an `INSIDE_OBJECT` node have
`full_name = parent.full_name + name`; scalar nodes are leaves. -/
def shapeLocal (t : NodeType) (nm fn : String) (fi : Option FieldInfo)
    (cs : List NodeT) : Bool :=
  (match fi with
   | some f => f.fname == nm
   | none => true) &&
  (match t with
   | .ARRAY =>
     match cs with
     | [c] =>
       nodeName c == nm && nodeFullName c == fn ++ ("[]") && nodeField c == fi &&
         (nodeType c != NodeType.ARRAY) && (nodeType c != NodeType.INSIDE_OBJECT)
     | _ => false
   | .OUTSIDE_OBJECT =>
     match cs with
     | [c] =>
       nodeType c == NodeType.INSIDE_OBJECT && nodeName c == nm &&
         nodeFullName c == fn ++ (".") && nodeField c == fi
     | _ => false
   | .INSIDE_OBJECT => cs.all fun c => nodeFullName c == fn ++ nodeName c
   | _ => cs.isEmpty)

mutual
/-- Requires `shapeLocal` at every node of a subtree. -/
def builtShape : NodeT → Bool
  | .mk t _ nm fn _ fi cs => shapeLocal t nm fn fi cs && builtShapeList cs

def builtShapeList : List NodeT → Bool
  | [] => true
  | c :: cs => builtShape c && builtShapeList cs
end

mutual
/-- Every field reachable from a message descriptor (through the walk the
builder performs) has a supported wire type. -/
def msgFieldsSupported : MsgD → Bool
  | .mk _ fs => fieldsSupported fs

def fieldsSupported : List FieldD → Bool
  | [] => true
  | f :: fs => fieldSupported f && fieldsSupported fs

def fieldSupported : FieldD → Bool
  | .mk _ pt _ _ mty =>
    supportedType pt &&
      (if pt = PType.tMESSAGE then
        match mty with
        | some m => msgFieldsSupported m
        | none => true
      else true)
end

/-- Holds when `sub` starts the second list. -/
def leadsIn : List Char → List Char → Bool
  | [], _ => true
  | _ :: _, [] => false
  | a :: as, b :: bs => a == b && leadsIn as bs

/-- Holds when `sub` occurs contiguously somewhere in the list. -/
def occursIn (sub : List Char) : List Char → Bool
  | [] => leadsIn sub []
  | c :: cs => leadsIn sub (c :: cs) || occursIn sub cs

/-- Holds when `sub` occurs as a contiguous substring of `s`. -/
def msgContains (s sub : String) : Bool := occursIn sub.data s.data

/-! ## Concrete example schemas and their graphs -/

/-- Schema `message Point { int32 x = 1; }`. -/
def exPoint : MsgD := MsgD.mk ("Point") [FieldD.mk ("x") PType.tINT32 false false none]

def exFiX : FieldInfo := ⟨("x"), PType.tINT32, false, false⟩

/-- Schema `message RM { repeated Point ps = 1; }`. -/
def exMrm : MsgD := MsgD.mk ("RM") [FieldD.mk ("ps") PType.tMESSAGE true false (some exPoint)]

def exFiPs : FieldInfo := ⟨("ps"), PType.tMESSAGE, true, false⟩

/-- The graph the builder produces for `exMrm`. -/
def exGrm : NodeT :=
  NodeT.mk NodeType.INSIDE_OBJECT 1 (".") (".") ("RM") none
    [NodeT.mk NodeType.ARRAY 2 ("ps") (".ps") ("[Point]") (some exFiPs)
      [NodeT.mk NodeType.OUTSIDE_OBJECT 3 ("ps") (".ps[]") ("Point") (some exFiPs)
        [NodeT.mk NodeType.INSIDE_OBJECT 4 ("ps") (".ps[].") ("Point") (some exFiPs)
          [NodeT.mk NodeType.LONG 5 ("x") (".ps[].x") ("int32") (some exFiX) []]]]]

/-- The `INSIDE_OBJECT` node of `exGrm` that sits inside the repeated
message array, as the emitter sees it. -/
def exErmInside : ENode :=
  ⟨NodeType.INSIDE_OBJECT, 4, ("ps"), (".ps[]."), some exFiPs,
    some ⟨3, NodeType.OUTSIDE_OBJECT, ("ps"), (".ps[]"), some exFiPs⟩,
    some ⟨2, NodeType.ARRAY, ("ps"), (".ps"), some exFiPs⟩,
    [⟨5, NodeType.LONG, ("x"), (".ps[].x"), some exFiX⟩]⟩

/-- The `OUTSIDE_OBJECT` node of `exGrm` at the repeated message field. -/
def exErmKey : ENode :=
  ⟨NodeType.OUTSIDE_OBJECT, 3, ("ps"), (".ps[]"), some exFiPs,
    some ⟨2, NodeType.ARRAY, ("ps"), (".ps"), some exFiPs⟩,
    some ⟨1, NodeType.INSIDE_OBJECT, ("."), ("."), none⟩,
    [⟨4, NodeType.INSIDE_OBJECT, ("ps"), (".ps[]."), some exFiPs⟩]⟩

/-- The root node of `exGrm` as the emitter sees it. -/
def exErmRoot : ENode :=
  ⟨NodeType.INSIDE_OBJECT, 1, ("."), ("."), none, none, none,
    [⟨2, NodeType.ARRAY, ("ps"), (".ps"), some exFiPs⟩]⟩

/-- The `ARRAY` node of `exGrm` as the emitter sees it. -/
def exErmArray : ENode :=
  ⟨NodeType.ARRAY, 2, ("ps"), (".ps"), some exFiPs,
    some ⟨1, NodeType.INSIDE_OBJECT, ("."), ("."), none⟩,
    none,
    [⟨3, NodeType.OUTSIDE_OBJECT, ("ps"), (".ps[]"), some exFiPs⟩]⟩

/-- Schema `message O { optional Point p = 1; }`. -/
def exMopt : MsgD := MsgD.mk ("O") [FieldD.mk ("p") PType.tMESSAGE false true (some exPoint)]

def exFiP : FieldInfo := ⟨("p"), PType.tMESSAGE, false, true⟩

/-- The graph the builder produces for `exMopt`. -/
def exGopt : NodeT :=
  NodeT.mk NodeType.INSIDE_OBJECT 1 (".") (".") ("O") none
    [NodeT.mk NodeType.OUTSIDE_OBJECT 2 ("p") (".p") ("Point") (some exFiP)
      [NodeT.mk NodeType.INSIDE_OBJECT 3 ("p") (".p.") ("Point") (some exFiP)
        [NodeT.mk NodeType.LONG 4 ("x") (".p.x") ("int32") (some exFiX) []]]]

/-- The `OUTSIDE_OBJECT` node of `exGopt` at the optional message field. -/
def exEoptKey : ENode :=
  ⟨NodeType.OUTSIDE_OBJECT, 2, ("p"), (".p"), some exFiP,
    some ⟨1, NodeType.INSIDE_OBJECT, ("."), ("."), none⟩,
    none,
    [⟨3, NodeType.INSIDE_OBJECT, ("p"), (".p."), some exFiP⟩]⟩

/-- Schema `message BD { bool b = 1; double d = 2; }`. -/
def exMbd : MsgD :=
  MsgD.mk ("BD")
    [FieldD.mk ("b") PType.tBOOL false false none,
     FieldD.mk ("d") PType.tDOUBLE false false none]

def exFiB : FieldInfo := ⟨("b"), PType.tBOOL, false, false⟩

def exFiD : FieldInfo := ⟨("d"), PType.tDOUBLE, false, false⟩

/-- The graph the builder produces for `exMbd`. -/
def exGbd : NodeT :=
  NodeT.mk NodeType.INSIDE_OBJECT 1 (".") (".") ("BD") none
    [NodeT.mk NodeType.BOOL 2 ("b") (".b") ("bool") (some exFiB) [],
     NodeT.mk NodeType.DOUBLE 3 ("d") (".d") ("double") (some exFiD) []]

/-- The `BOOL` node of `exGbd` as the emitter sees it. -/
def exEbdBool : ENode :=
  ⟨NodeType.BOOL, 2, ("b"), (".b"), some exFiB,
    some ⟨1, NodeType.INSIDE_OBJECT, ("."), ("."), none⟩, none, []⟩

/-- Schema `message R { repeated int32 xs = 1; }`. -/
def exMr : MsgD := MsgD.mk ("R") [FieldD.mk ("xs") PType.tINT32 true false none]

def exFiXs : FieldInfo := ⟨("xs"), PType.tINT32, true, false⟩

/-- The graph the builder produces for `exMr`. -/
def exGr : NodeT :=
  NodeT.mk NodeType.INSIDE_OBJECT 1 (".") (".") ("R") none
    [NodeT.mk NodeType.ARRAY 2 ("xs") (".xs") ("[int32]") (some exFiXs)
      [NodeT.mk NodeType.LONG 3 ("xs") (".xs[]") ("int32") (some exFiXs) []]]

/-- The `ARRAY` node of `exGr` as the emitter sees it. -/
def exErArray : ENode :=
  ⟨NodeType.ARRAY, 2, ("xs"), (".xs"), some exFiXs,
    some ⟨1, NodeType.INSIDE_OBJECT, ("."), ("."), none⟩,
    none,
    [⟨3, NodeType.LONG, ("xs"), (".xs[]"), some exFiXs⟩]⟩

/-- Schema `message M { int32 a = 1; int32 b = 2; }`. -/
def exMab : MsgD :=
  MsgD.mk ("M")
    [FieldD.mk ("a") PType.tINT32 false false none,
     FieldD.mk ("b") PType.tINT32 false false none]

/-- The graph the builder produces for `exMab`. -/
def exGab : NodeT :=
  NodeT.mk NodeType.INSIDE_OBJECT 1 (".") (".") ("M") none
    [NodeT.mk NodeType.LONG 2 ("a") (".a") ("int32")
      (some ⟨("a"), PType.tINT32, false, false⟩) [],
     NodeT.mk NodeType.LONG 3 ("b") (".b") ("int32")
      (some ⟨("b"), PType.tINT32, false, false⟩) []]

/-- Schema `message M { uint64 xs = 1; }`. -/
def exMu64 : MsgD := MsgD.mk ("M") [FieldD.mk ("xs") PType.tUINT64 false false none]

/-! ## Properties of single flattened nodes, used as induction invariants -/

/-- The facts the builder guarantees about a node relative to its parent:
children of `INSIDE_OBJECT` nodes extend the parent's `full_name` by their
name (protog.cpp:198); the array element extends it by `[]` and reuses the
field's name and back-reference (protog.cpp:225-229); the injected object
node extends it by `.` and reuses name and back-reference
(protog.cpp:237-241). -/
def relFromParent (pref : NRef) (e : ENode) : Prop :=
  match pref.type with
  | .INSIDE_OBJECT => e.full_name = pref.full_name ++ e.name
  | .ARRAY =>
    e.full_name = pref.full_name ++ ("[]") ∧ e.name = pref.name ∧
      e.field = pref.field ∧ e.type ≠ NodeType.ARRAY ∧ e.type ≠ NodeType.INSIDE_OBJECT
  | .OUTSIDE_OBJECT =>
    e.full_name = pref.full_name ++ (".") ∧ e.name = pref.name ∧
      e.field = pref.field ∧ e.type = NodeType.INSIDE_OBJECT
  | _ => False

/-- The facts the builder guarantees about a node's own children. -/
def childFacts (e : ENode) : Prop :=
  match e.type with
  | .ARRAY =>
    ∃ c : NRef, e.children = [c] ∧ c.name = e.name ∧
      c.full_name = e.full_name ++ ("[]") ∧ c.field = e.field
  | .OUTSIDE_OBJECT =>
    ∃ c : NRef, e.children = [c] ∧ c.type = NodeType.INSIDE_OBJECT ∧
      c.name = e.name ∧ c.full_name = e.full_name ++ (".") ∧ c.field = e.field
  | .INSIDE_OBJECT => ∀ c ∈ e.children, c.full_name = e.full_name ++ c.name
  | _ => e.children = []

/-- All local facts about one flattened node of a built graph. -/
def EGood (e : ENode) : Prop :=
  (∀ fi, e.field = some fi → fi.fname = e.name) ∧
  childFacts e ∧
  (∀ pref, e.parent = some pref → relFromParent pref e)

/-- Restates `relFromParent` for an unflattened subtree root. -/
def ctxRel (pref : NRef) (n : NodeT) : Prop :=
  match pref.type with
  | .INSIDE_OBJECT => nodeFullName n = pref.full_name ++ nodeName n
  | .ARRAY =>
    nodeFullName n = pref.full_name ++ ("[]") ∧ nodeName n = pref.name ∧
      nodeField n = pref.field ∧ nodeType n ≠ NodeType.ARRAY ∧
      nodeType n ≠ NodeType.INSIDE_OBJECT
  | .OUTSIDE_OBJECT =>
    nodeFullName n = pref.full_name ++ (".") ∧ nodeName n = pref.name ∧
      nodeField n = pref.field ∧ nodeType n = NodeType.INSIDE_OBJECT
  | _ => False

def ctxOK (p : Option NRef) (n : NodeT) : Prop :=
  match p with
  | some pref => ctxRel pref n
  | none => True

/-! # Theorems -/

theorem range'_cons1 (a m : Nat) : List.range' a (m + 1) = a :: List.range' (a + 1) m := by
  simp [List.range'_succ]

theorem range'_cons2 (a m : Nat) :
    List.range' a (m + 2) = a :: (a + 1) :: List.range' (a + 2) m := by
  rw [show m + 2 = (m + 1) + 1 from rfl, range'_cons1, range'_cons1]

theorem range'_cons3 (a m : Nat) :
    List.range' a (m + 3) = a :: (a + 1) :: (a + 2) :: List.range' (a + 3) m := by
  rw [show m + 3 = (m + 2) + 1 from rfl, range'_cons1, range'_cons2]

/-- The node kinds `getNodeTypeForProtoType` can return never include
`ARRAY` or `INSIDE_OBJECT` (those are only assigned by the builder
itself). -/
theorem nodeTypeForProto_ne (pt : PType) (ty : NodeType)
    (h : getNodeTypeForProtoType pt = .ok ty) :
    ty ≠ NodeType.ARRAY ∧ ty ≠ NodeType.INSIDE_OBJECT := by
  cases pt <;> simp [getNodeTypeForProtoType] at h <;> simp [← h]

mutual
/-- Facts established by processing one field: the produced subtree has the
builder's local shape everywhere, its pre-order states are exactly the
dense range from `k + 1` to the returned counter, and its root's
`full_name` extends the enclosing `full_name` by its name. -/
theorem parseFieldDescRec_facts (pfx : String) (k : Nat) (f : FieldD) (n : NodeT)
    (k2 : Nat) (h : parseFieldDescRec pfx k f = .ok (n, k2)) :
    builtShape n = true ∧ statesOf n = List.range' (k + 1) (k2 - k) ∧ k < k2 ∧
      nodeFullName n = pfx ++ nodeName n := by
  obtain ⟨nm, pt, rep, opt, mty⟩ := f
  rw [parseFieldDescRec.eq_def] at h
  simp only [] at h
  cases hty : getNodeTypeForProtoType pt with
  | error e => rw [hty] at h; simp at h
  | ok ty =>
    rw [hty] at h
    simp only [] at h
    obtain ⟨htyA, htyI⟩ := nodeTypeForProto_ne pt ty hty
    by_cases hrep : rep = false
    · rw [if_pos hrep] at h
      by_cases hob : ty = NodeType.OUTSIDE_OBJECT
      · subst hob
        rw [if_pos rfl] at h
        cases mty with
        | none => simp at h
        | some md =>
          obtain ⟨mn, mfs⟩ := md
          simp only [] at h
          cases hrec : parseMessageDescRec (pfx ++ nm ++ (".")) (k + 2) mfs with
          | error e => rw [hrec] at h; simp at h
          | ok res =>
            obtain ⟨cs, kk⟩ := res
            rw [hrec] at h
            simp only [Except.ok.injEq, Prod.mk.injEq] at h
            obtain ⟨hn, hk⟩ := h
            subst hn; subst hk
            obtain ⟨ih1, ih2, ih3, ih4⟩ := parseMessageDescRec_facts _ _ _ _ _ hrec
            refine ⟨?_, ?_, by omega, by simp [nodeFullName, nodeName]⟩
            · simp [builtShape, builtShapeList, shapeLocal, nodeName, nodeFullName,
                nodeField, nodeType, ih1, List.all_eq_true]
              intro c hc
              simpa [nodeFullName, nodeName] using ih4 c hc
            · simp only [statesOf, statesOfList, List.append_nil, ih2]
              rw [show kk - k = (kk - (k + 2)) + 2 from by omega, range'_cons2]
      · rw [if_neg hob] at h
        simp only [Except.ok.injEq, Prod.mk.injEq] at h
        obtain ⟨hn, hk⟩ := h
        subst hn; subst hk
        refine ⟨?_, ?_, by omega, by simp [nodeFullName, nodeName]⟩
        · cases ty <;>
            simp_all [builtShape, builtShapeList, shapeLocal, nodeName, nodeFullName,
              nodeField, nodeType]
        · simp only [statesOf, statesOfList]
          rw [show k + 1 - k = 0 + 1 from by omega, range'_cons1]
          simp
    · rw [if_neg hrep] at h
      by_cases hob : ty = NodeType.OUTSIDE_OBJECT
      · subst hob
        rw [if_pos rfl] at h
        cases mty with
        | none => simp at h
        | some md =>
          obtain ⟨mn, mfs⟩ := md
          simp only [] at h
          cases hrec : parseMessageDescRec (pfx ++ nm ++ ("[]") ++ (".")) (k + 3) mfs with
          | error e => rw [hrec] at h; simp at h
          | ok res =>
            obtain ⟨cs, kk⟩ := res
            rw [hrec] at h
            simp only [Except.ok.injEq, Prod.mk.injEq] at h
            obtain ⟨hn, hk⟩ := h
            subst hn; subst hk
            obtain ⟨ih1, ih2, ih3, ih4⟩ := parseMessageDescRec_facts _ _ _ _ _ hrec
            refine ⟨?_, ?_, by omega, by simp [nodeFullName, nodeName]⟩
            · simp [builtShape, builtShapeList, shapeLocal, nodeName, nodeFullName,
                nodeField, nodeType, ih1, List.all_eq_true]
              intro c hc
              simpa [nodeFullName, nodeName] using ih4 c hc
            · simp only [statesOf, statesOfList, List.append_nil, ih2]
              rw [show kk - k = (kk - (k + 3)) + 3 from by omega, range'_cons3]
      · rw [if_neg hob] at h
        simp only [Except.ok.injEq, Prod.mk.injEq] at h
        obtain ⟨hn, hk⟩ := h
        subst hn; subst hk
        refine ⟨?_, ?_, by omega, by simp [nodeFullName, nodeName]⟩
        · cases ty <;>
            simp_all [builtShape, builtShapeList, shapeLocal, nodeName, nodeFullName,
              nodeField, nodeType]
        · simp only [statesOf, statesOfList, List.append_nil]
          rw [show k + 2 - k = 0 + 2 from by omega, range'_cons2]
          simp

/-- Facts established by the field loop: all subtrees produced so far have
the builder's shape, their pre-order states are the dense range from
`k + 1` to the returned counter, and each subtree root's `full_name`
extends the enclosing one by its name. -/
theorem parseMessageDescRec_facts (pfx : String) (k : Nat) (fs : List FieldD)
    (ns : List NodeT) (k2 : Nat) (h : parseMessageDescRec pfx k fs = .ok (ns, k2)) :
    builtShapeList ns = true ∧ statesOfList ns = List.range' (k + 1) (k2 - k) ∧
      k ≤ k2 ∧ ∀ c ∈ ns, nodeFullName c = pfx ++ nodeName c := by
  cases fs with
  | nil =>
    rw [parseMessageDescRec.eq_def] at h
    simp only [] at h
    simp only [Except.ok.injEq, Prod.mk.injEq] at h
    obtain ⟨hn, hk⟩ := h
    subst hn; subst hk
    simp [builtShapeList, statesOfList, show k - k = 0 from by omega]
  | cons f rest =>
    rw [parseMessageDescRec.eq_def] at h
    simp only [] at h
    cases hf : parseFieldDescRec pfx k f with
    | error e => rw [hf] at h; simp at h
    | ok res =>
      obtain ⟨n, k1⟩ := res
      rw [hf] at h
      simp only [] at h
      cases hrest : parseMessageDescRec pfx k1 rest with
      | error e => rw [hrest] at h; simp at h
      | ok res2 =>
        obtain ⟨ns2, kk⟩ := res2
        rw [hrest] at h
        simp only [Except.ok.injEq, Prod.mk.injEq] at h
        obtain ⟨hn, hk⟩ := h
        subst hn; subst hk
        obtain ⟨ih1, ih2, ih3, ih4⟩ := parseFieldDescRec_facts _ _ _ _ _ hf
        obtain ⟨jh1, jh2, jh3, jh4⟩ := parseMessageDescRec_facts _ _ _ _ _ hrest
        refine ⟨by simp [builtShapeList, ih1, jh1], ?_, by omega, ?_⟩
        · simp only [statesOfList, ih2, jh2]
          calc
            List.range' (k + 1) (k1 - k) ++ List.range' (k1 + 1) (kk - k1)
                = List.range' (k + 1) (k1 - k) ++
                    List.range' ((k + 1) + 1 * (k1 - k)) (kk - k1) := by
                  congr 2
                  omega
            _ = List.range' (k + 1) ((kk - k1) + (k1 - k)) := List.range'_append _ _ _ _
            _ = List.range' (k + 1) (kk - k) := by congr 1; omega
        · intro c hc
          rcases List.mem_cons.mp hc with rfl | hc2
          · exact ih4
          · exact jh4 c hc2
end

theorem nref_state (c : NodeT) : (nref c).state = nodeState c := by cases c; rfl

theorem nref_type (c : NodeT) : (nref c).type = nodeType c := by cases c; rfl

theorem nref_name (c : NodeT) : (nref c).name = nodeName c := by cases c; rfl

theorem nref_full (c : NodeT) : (nref c).full_name = nodeFullName c := by cases c; rfl

theorem nref_field (c : NodeT) : (nref c).field = nodeField c := by cases c; rfl

theorem flattenNode_unfold (p gp : Option NRef) (n : NodeT) :
    flattenNode p gp n = toENode n p gp :: flattenList (some (nref n)) p (childrenOf n) := by
  cases n
  rfl

theorem mem_flattenList (p gp : Option NRef) (l : List NodeT) (e : ENode) :
    e ∈ flattenList p gp l ↔ ∃ c ∈ l, e ∈ flattenNode p gp c := by
  induction l with
  | nil =>
    rw [flattenList.eq_def]
    simp
  | cons c cs ih =>
    rw [flattenList.eq_def]
    simp [ih]

/-- Facts established for the whole graph by `parseMessageDesc`: the root is
the `INSIDE_OBJECT` node with state 1, name and `full_name` ".", no field
back-reference; the builder's local shape holds everywhere; and the
pre-order states are exactly `1, 2, ..., N`. -/
theorem parseMessageDesc_facts (m : MsgD) (g : NodeT) (h : parseMessageDesc m = .ok g) :
    builtShape g = true ∧ nodeState g = 1 ∧ nodeType g = NodeType.INSIDE_OBJECT ∧
      nodeField g = none ∧
      statesOf g = List.range' 1 (statesOf g).length := by
  obtain ⟨mn, mfs⟩ := m
  rw [parseMessageDesc.eq_def] at h
  simp only [] at h
  cases hrec : parseMessageDescRec (".") 1 mfs with
  | error e => rw [hrec] at h; simp at h
  | ok res =>
    obtain ⟨cs, k2⟩ := res
    rw [hrec] at h
    simp only [Except.ok.injEq] at h
    subst h
    obtain ⟨ih1, ih2, ih3, ih4⟩ := parseMessageDescRec_facts _ _ _ _ _ hrec
    refine ⟨?_, rfl, rfl, rfl, ?_⟩
    · simp [builtShape, shapeLocal, ih1, List.all_eq_true]
      intro c hc
      simpa [nodeFullName, nodeName] using ih4 c hc
    · simp only [statesOf, ih2]
      rw [List.length_cons, List.length_range']
      rw [show k2 - 1 + 1 = (k2 - 1) + 1 from rfl, range'_cons1]

mutual
theorem flattenNode_statesMap (p gp : Option NRef) (n : NodeT) :
    (flattenNode p gp n).map ENode.state = statesOf n := by
  cases n with
  | mk t s nm fn tn fi cs =>
    rw [flattenNode.eq_def, statesOf.eq_def]
    simp only [List.map_cons]
    rw [flattenList_statesMap]

theorem flattenList_statesMap (p gp : Option NRef) (l : List NodeT) :
    (flattenList p gp l).map ENode.state = statesOfList l := by
  cases l with
  | nil => rw [flattenList.eq_def, statesOfList.eq_def]; rfl
  | cons c cs =>
    rw [flattenList.eq_def, statesOfList.eq_def]
    simp only [List.map_append]
    rw [flattenNode_statesMap, flattenList_statesMap]
end

theorem builtShapeList_mem (l : List NodeT) (hs : builtShapeList l = true) :
    ∀ c ∈ l, builtShape c = true := by
  induction l with
  | nil => intro c hc; cases hc
  | cons d ds ih =>
    rw [builtShapeList.eq_def] at hs
    simp only [Bool.and_eq_true] at hs
    intro c hc
    rcases List.mem_cons.mp hc with rfl | hc2
    · exact hs.1
    · exact ih hs.2 c hc2

/-- Every flattened node of a subtree with the builder's local shape
satisfies `EGood`, provided the parent context is consistent. -/
theorem flattenNode_good (p gp : Option NRef) (n : NodeT) (hs : builtShape n = true)
    (hc : ctxOK p n) : ∀ e ∈ flattenNode p gp n, EGood e := by
  cases n with
  | mk t s nm fn tn fi cs =>
    rw [builtShape.eq_def] at hs
    simp only [Bool.and_eq_true] at hs
    obtain ⟨hsl, hcs⟩ := hs
    simp only [shapeLocal, Bool.and_eq_true] at hsl
    obtain ⟨hfname, hkind⟩ := hsl
    intro e he
    rw [flattenNode.eq_def] at he
    rcases List.mem_cons.mp he with rfl | he2
    · refine ⟨?_, ?_, ?_⟩
      · intro fi' hfi'
        dsimp only at hfi' ⊢
        rw [hfi'] at hfname
        simpa using hfname
      · show childFacts ⟨t, s, nm, fn, fi, p, gp, cs.map nref⟩
        cases t with
        | ARRAY =>
          simp only [childFacts]
          cases cs with
          | nil => simp at hkind
          | cons c rest =>
            cases rest with
            | cons c2 rest2 => simp at hkind
            | nil =>
              simp only [Bool.and_eq_true, beq_iff_eq, bne_iff_ne] at hkind
              obtain ⟨⟨⟨⟨h1, h2⟩, h3⟩, h4⟩, h5⟩ := hkind
              exact ⟨nref c, by simp, by rw [nref_name]; exact h1,
                by rw [nref_full]; exact h2, by rw [nref_field]; exact h3⟩
        | OUTSIDE_OBJECT =>
          simp only [childFacts]
          cases cs with
          | nil => simp at hkind
          | cons c rest =>
            cases rest with
            | cons c2 rest2 => simp at hkind
            | nil =>
              simp only [Bool.and_eq_true, beq_iff_eq] at hkind
              obtain ⟨⟨⟨h0, h1⟩, h2⟩, h3⟩ := hkind
              exact ⟨nref c, by simp, by rw [nref_type]; exact h0,
                by rw [nref_name]; exact h1, by rw [nref_full]; exact h2,
                by rw [nref_field]; exact h3⟩
        | INSIDE_OBJECT =>
          simp only [childFacts]
          intro cref hcref
          obtain ⟨c, hc0, rfl⟩ := List.mem_map.mp hcref
          rw [nref_full, nref_name]
          rw [List.all_eq_true] at hkind
          simpa using hkind c hc0
        | BOOL => simp only [childFacts]; simpa using hkind
        | LONG => simp only [childFacts]; simpa using hkind
        | DOUBLE => simp only [childFacts]; simpa using hkind
        | STRING => simp only [childFacts]; simpa using hkind
      · intro pref hp
        dsimp only at hp
        subst hp
        simp only [ctxOK] at hc
        cases hpt : pref.type <;>
          simp_all [relFromParent, ctxRel, nodeFullName, nodeName, nodeField, nodeType]
    · rw [mem_flattenList] at he2
      obtain ⟨c, hc0, hec⟩ := he2
      have hbc : builtShape c = true := builtShapeList_mem cs hcs c hc0
      refine flattenNode_good (some ⟨s, t, nm, fn, fi⟩) p c hbc ?_ e hec
      show ctxRel ⟨s, t, nm, fn, fi⟩ c
      cases t with
      | ARRAY =>
        cases cs with
        | nil => simp at hkind
        | cons c1 rest =>
          cases rest with
          | cons c2 rest2 => simp at hkind
          | nil =>
            simp only [Bool.and_eq_true, beq_iff_eq, bne_iff_ne] at hkind
            obtain ⟨⟨⟨⟨h1, h2⟩, h3⟩, h4⟩, h5⟩ := hkind
            rcases List.mem_singleton.mp hc0 with rfl
            exact ⟨h2, h1, h3, h4, h5⟩
      | OUTSIDE_OBJECT =>
        cases cs with
        | nil => simp at hkind
        | cons c1 rest =>
          cases rest with
          | cons c2 rest2 => simp at hkind
          | nil =>
            simp only [Bool.and_eq_true, beq_iff_eq] at hkind
            obtain ⟨⟨⟨h0, h1⟩, h2⟩, h3⟩ := hkind
            rcases List.mem_singleton.mp hc0 with rfl
            exact ⟨h2, h1, h3, h0⟩
      | INSIDE_OBJECT =>
        rw [List.all_eq_true] at hkind
        show nodeFullName c = fn ++ nodeName c
        simpa using hkind c hc0
      | BOOL => simp only [List.isEmpty_iff] at hkind; subst hkind; cases hc0
      | LONG => simp only [List.isEmpty_iff] at hkind; subst hkind; cases hc0
      | DOUBLE => simp only [List.isEmpty_iff] at hkind; subst hkind; cases hc0
      | STRING => simp only [List.isEmpty_iff] at hkind; subst hkind; cases hc0
termination_by sizeOf n
decreasing_by
  subst_vars
  simp only [NodeT.mk.sizeOf_spec]
  have := List.sizeOf_lt_of_mem hc0
  omega

/-- Every `children` entry of a flattened node is realized by a flattened
node of the same list whose parent pointer refers back to it. -/
theorem flattenNode_children (p gp : Option NRef) (n : NodeT) :
    ∀ e ∈ flattenNode p gp n, ∀ cref ∈ e.children,
      ∃ ce ∈ flattenNode p gp n, enodeRef ce = cref ∧ ce.parent = some (enodeRef e) := by
  cases n with
  | mk t s nm fn tn fi cs =>
    intro e he cref hcref
    rw [flattenNode_unfold] at he
    rcases List.mem_cons.mp he with rfl | he2
    · obtain ⟨c, hc0, rfl⟩ := List.mem_map.mp hcref
      refine ⟨toENode c (some ⟨s, t, nm, fn, fi⟩) p, ?_, ?_, ?_⟩
      · rw [flattenNode_unfold]
        refine List.mem_cons_of_mem _ ?_
        rw [mem_flattenList]
        refine ⟨c, hc0, ?_⟩
        rw [flattenNode_unfold]
        exact List.mem_cons_self _ _
      · cases c; rfl
      · cases c; rfl
    · rw [mem_flattenList] at he2
      obtain ⟨c, hc0, hec⟩ := he2
      obtain ⟨ce, hce, h1, h2⟩ :=
        flattenNode_children (some ⟨s, t, nm, fn, fi⟩) p c e hec cref hcref
      refine ⟨ce, ?_, h1, h2⟩
      rw [flattenNode_unfold]
      refine List.mem_cons_of_mem _ ?_
      rw [mem_flattenList]
      exact ⟨c, hc0, hce⟩
termination_by sizeOf n
decreasing_by
  subst_vars
  simp only [NodeT.mk.sizeOf_spec]
  have := List.sizeOf_lt_of_mem hc0
  simp only [childrenOf] at this
  omega

/-- If a flattened node's grandparent pointer refers to an `ARRAY` node,
then — unless the node sits in the top two levels of the flattened subtree,
where the pointer comes from the context — that array belongs to the same
flattened list and its unique element child is the node's parent. -/
theorem flattenNode_gpar (p gp : Option NRef) (n : NodeT) (hs : builtShape n = true) :
    ∀ e ∈ flattenNode p gp n, ∀ gref : NRef, e.gparent = some gref →
      gref.type = NodeType.ARRAY →
      e = toENode n p gp ∨
      (∃ c ∈ childrenOf n, e = toENode c (nref n) p) ∨
      (∃ pref : NRef, e.parent = some pref ∧ ∃ a ∈ flattenNode p gp n,
        a.type = NodeType.ARRAY ∧ a.state = gref.state ∧
        a.children.map NRef.state = [pref.state]) := by
  cases n with
  | mk t s nm fn tn fi cs =>
    rw [builtShape.eq_def] at hs
    simp only [Bool.and_eq_true] at hs
    obtain ⟨hsl, hcs⟩ := hs
    simp only [shapeLocal, Bool.and_eq_true] at hsl
    obtain ⟨hfname, hkind⟩ := hsl
    intro e he gref hg hgt
    rw [flattenNode_unfold] at he
    rcases List.mem_cons.mp he with rfl | he2
    · exact Or.inl rfl
    · rw [mem_flattenList] at he2
      obtain ⟨c, hc0, hec⟩ := he2
      have hbc : builtShape c = true := builtShapeList_mem cs hcs c hc0
      rcases flattenNode_gpar (some (nref (NodeT.mk t s nm fn tn fi cs))) p c hbc
          e hec gref hg hgt with h1 | h2 | h3
      · exact Or.inr (Or.inl ⟨c, hc0, h1⟩)
      · obtain ⟨d, hd0, rfl⟩ := h2
        have hgn : gref = nref (NodeT.mk t s nm fn tn fi cs) := by
          cases d
          simp only [toENode, Option.some.injEq] at hg
          exact hg.symm
        have ht : t = NodeType.ARRAY := by
          rw [hgn] at hgt
          simpa [nref] using hgt
        subst ht
        cases cs with
        | nil => cases hc0
        | cons c1 rest =>
          cases rest with
          | cons c2 rest2 => simp at hkind
          | nil =>
            rcases List.mem_singleton.mp hc0 with rfl
            refine Or.inr (Or.inr ⟨nref c, by cases d; rfl,
              toENode (NodeT.mk NodeType.ARRAY s nm fn tn fi [c]) p gp, ?_, ?_, ?_, ?_⟩)
            · rw [flattenNode_unfold]
              exact List.mem_cons_self _ _
            · rfl
            · rw [hgn]; rfl
            · rfl
      · obtain ⟨pref, hp, a, ha, ha1, ha2, ha3⟩ := h3
        refine Or.inr (Or.inr ⟨pref, hp, a, ?_, ha1, ha2, ha3⟩)
        rw [flattenNode_unfold]
        refine List.mem_cons_of_mem _ ?_
        rw [mem_flattenList]
        exact ⟨c, hc0, ha⟩
termination_by sizeOf n
decreasing_by
  subst_vars
  simp only [NodeT.mk.sizeOf_spec]
  have := List.sizeOf_lt_of_mem hc0
  simp only [childrenOf] at this
  omega

/-- Every node of a built graph satisfies the local facts `EGood`. -/
theorem allNodes_good (m : MsgD) (g : NodeT) (h : parseMessageDesc m = .ok g) :
    ∀ e ∈ allNodes g, EGood e := by
  obtain ⟨hb, _, _, _, _⟩ := parseMessageDesc_facts m g h
  exact flattenNode_good none none g hb (by simp [ctxOK])

/-! ## Claim theorems -/

/-- Claim C6: in every parse graph the builder produces, the root node has
state 1, and the states of all nodes are pairwise distinct and form exactly
the dense range from 1 to the total number of nodes, with no gaps. -/
theorem claim_C6 (m : MsgD) (g : NodeT) (hg : parseMessageDesc m = Except.ok g) :
    nodeState g = 1 ∧ ((allNodes g).map ENode.state).Nodup ∧
      ∀ s : Nat, s ∈ (allNodes g).map ENode.state ↔ 1 ≤ s ∧ s ≤ (allNodes g).length := by
  obtain ⟨_, hroot, _, _, hst⟩ := parseMessageDesc_facts m g hg
  have hmap : (allNodes g).map ENode.state = statesOf g := flattenNode_statesMap none none g
  have hlen : (allNodes g).length = (statesOf g).length := by
    rw [← hmap, List.length_map]
  refine ⟨hroot, ?_, ?_⟩
  · rw [hmap, hst]
    exact List.nodup_range' _ _
  · intro s
    rw [hmap, hlen]
    rw [hst, List.mem_range'_1, List.length_range']
    omega

/-- Witness for C6 on the concrete schema `RM { repeated Point ps }`. -/
theorem claim_C6_w :
    nodeState exGrm = 1 ∧ ((allNodes exGrm).map ENode.state).Nodup ∧
      (3 ∈ (allNodes exGrm).map ENode.state ↔ 1 ≤ 3 ∧ 3 ≤ (allNodes exGrm).length) := by
  obtain ⟨h1, h2, h3⟩ := claim_C6 exMrm exGrm (by rfl)
  exact ⟨h1, h2, h3 3⟩

/-- Claim C7: in every parse graph the builder produces, every `Array` node
has exactly one child (the element node), and every `KeyIntoMessage`
(`OUTSIDE_OBJECT`) node has exactly one child, whose kind is
`InsideMessage` (`INSIDE_OBJECT`). -/
theorem claim_C7 (m : MsgD) (g : NodeT) (hg : parseMessageDesc m = Except.ok g) :
    ∀ e ∈ allNodes g,
      (e.type = NodeType.ARRAY → e.children.length = 1) ∧
      (e.type = NodeType.OUTSIDE_OBJECT →
        ∃ c, e.children = [c] ∧ c.type = NodeType.INSIDE_OBJECT) := by
  intro e he
  obtain ⟨_, hcf, _⟩ := allNodes_good m g hg e he
  constructor
  · intro ht
    rw [childFacts, ht] at hcf
    obtain ⟨c, hc, _⟩ := hcf
    simp [hc]
  · intro ht
    rw [childFacts, ht] at hcf
    obtain ⟨c, hc, hct, _⟩ := hcf
    exact ⟨c, hc, hct⟩

/-- Witness for C7 on the concrete schema `RM { repeated Point ps }`. -/
theorem claim_C7_w :
    exErmArray.children.length = 1 ∧ exErmKey.children.length = 1 := by
  have h1 := claim_C7 exMrm exGrm (by rfl) exErmArray (by decide)
  have h2 := claim_C7 exMrm exGrm (by rfl) exErmKey (by decide)
  refine ⟨h1.1 (by decide), ?_⟩
  obtain ⟨c, hc, _⟩ := h2.2 (by decide)
  simp [hc]

/-- Claim C8: after the graph builder populates the category indexes, every
node in `bool_nodes` is also in `long_nodes` and every node in
`double_nodes` is also in `long_nodes` (the documented widening), so the
emitted integer handler contains a case at every bool-typed and
double-typed position. -/
theorem claim_C8 (m : MsgD) (g : NodeT) (hg : parseMessageDesc m = Except.ok g) :
    (∀ e ∈ bool_nodes (allNodes g), e ∈ long_nodes (allNodes g) ∧
      printPodStateImpl e ∈ printIntegerImpl (allNodes g)) ∧
    (∀ e ∈ double_nodes (allNodes g), e ∈ long_nodes (allNodes g) ∧
      printPodStateImpl e ∈ printIntegerImpl (allNodes g)) := by
  constructor
  · intro e he
    rw [bool_nodes, List.mem_filter] at he
    have hl : e ∈ long_nodes (allNodes g) := by
      rw [long_nodes, List.mem_filter]
      refine ⟨he.1, ?_⟩
      have := he.2
      simp only [isBoolNode, beq_iff_eq] at this
      simp [isLongNode, this]
    exact ⟨hl, List.mem_map_of_mem _ hl⟩
  · intro e he
    rw [double_nodes, List.mem_filter] at he
    have hl : e ∈ long_nodes (allNodes g) := by
      rw [long_nodes, List.mem_filter]
      refine ⟨he.1, ?_⟩
      have := he.2
      simp only [isDoubleNode, beq_iff_eq] at this
      simp [isLongNode, this]
    exact ⟨hl, List.mem_map_of_mem _ hl⟩

/-- Witness for C8 on the concrete schema `BD { bool b; double d }`. -/
theorem claim_C8_w :
    exEbdBool ∈ long_nodes (allNodes exGbd) ∧
      printPodStateImpl exEbdBool ∈ printIntegerImpl (allNodes exGbd) :=
  (claim_C8 exMbd exGbd (by rfl)).1 exEbdBool (by decide)

/-- Counterexample for Claim C2 as stated: for
`message R { repeated int32 xs = 1; }` the `ARRAY` node allocated at the
field position gets `full_name = ".xs"` (the enclosing `full_name` plus
the field name), not `".[]"` as the claim asserts, and its element child
gets `".xs[]"`, not `".xs"`. -/
theorem claim_C2_cex :
    parseMessageDesc exMr = Except.ok exGr ∧
    exErArray ∈ allNodes exGr ∧
    exErArray.type = NodeType.ARRAY ∧
    exErArray.parent = some ⟨1, NodeType.INSIDE_OBJECT, ("."), ("."), none⟩ ∧
    exErArray.full_name ≠ (".") ++ ("[]") ∧
    ∀ cref ∈ exErArray.children, cref.full_name ≠ (".") ++ ("xs") :=
  ⟨by rfl, by decide, by decide, by decide, by decide, by decide⟩

/-- Claim C2 (amended): for every repeated field, the `ARRAY` node allocated
at the field position receives `full_name` equal to the enclosing node's
`full_name` with the field name appended, and its single element child
receives `full_name` equal to the array node's `full_name` with `"[]"`
appended (the element node reuses the field name). -/
theorem claim_C2 (m : MsgD) (g : NodeT) (hg : parseMessageDesc m = Except.ok g) :
    ∀ e ∈ allNodes g, e.type = NodeType.ARRAY →
      (∀ fi, e.field = some fi → fi.fname = e.name) ∧
      (∀ pref, e.parent = some pref → e.full_name = pref.full_name ++ e.name) ∧
      ∃ c, e.children = [c] ∧ c.name = e.name ∧ c.full_name = e.full_name ++ ("[]") := by
  intro e he ht
  obtain ⟨hfn, hcf, hpar⟩ := allNodes_good m g hg e he
  refine ⟨hfn, ?_, ?_⟩
  · intro pref hp
    have hrel := hpar pref hp
    cases hpt : pref.type with
    | INSIDE_OBJECT =>
      rw [relFromParent, hpt] at hrel
      exact hrel
    | ARRAY =>
      rw [relFromParent, hpt] at hrel
      exact absurd ht hrel.2.2.2.1
    | OUTSIDE_OBJECT =>
      rw [relFromParent, hpt] at hrel
      rw [ht] at hrel
      exact absurd hrel.2.2.2 (by decide)
    | BOOL => rw [relFromParent, hpt] at hrel; exact hrel.elim
    | LONG => rw [relFromParent, hpt] at hrel; exact hrel.elim
    | DOUBLE => rw [relFromParent, hpt] at hrel; exact hrel.elim
    | STRING => rw [relFromParent, hpt] at hrel; exact hrel.elim
  · rw [childFacts, ht] at hcf
    obtain ⟨c, hc1, hc2, hc3, _⟩ := hcf
    exact ⟨c, hc1, hc2, hc3⟩

/-- Witness for the amended C2 on `R { repeated int32 xs }`. -/
theorem claim_C2_w :
    exErArray.full_name = (".") ++ exErArray.name ∧
      exErArray.children.map NRef.full_name = [exErArray.full_name ++ ("[]")] := by
  have h := claim_C2 exMr exGr (by rfl) exErArray (by decide) (by decide)
  refine ⟨h.2.1 ⟨1, NodeType.INSIDE_OBJECT, ("."), ("."), none⟩ (by decide), ?_⟩
  obtain ⟨c, hc1, _, hc3⟩ := h.2.2
  rw [hc1]
  simp [hc3]

/-- Claim C9: for every optional message-typed field, the graph builder adds
both the `OUTSIDE_OBJECT` node at the field position and its
`INSIDE_OBJECT` child to the nullable index (both carrying the same field
back-reference), so the emitted null handler contains a case at the
inside-object state which invokes the field's clearer and sets `location`
to the key node's state. -/
theorem claim_C9 (m : MsgD) (g : NodeT) (hg : parseMessageDesc m = Except.ok g) :
    ∀ e ∈ allNodes g, e.type = NodeType.OUTSIDE_OBJECT →
      ∀ fi, e.field = some fi → fi.isOptional = true →
        e ∈ null_nodes (allNodes g) ∧
        ∃ me ∈ allNodes g, me.type = NodeType.INSIDE_OBJECT ∧ me.field = some fi ∧
          me.parent = some (enodeRef e) ∧ me ∈ null_nodes (allNodes g) ∧
          printNullStateImpl me = ⟨me.state, fi.fname, e.state⟩ ∧
          printNullStateImpl me ∈ printNullImpl (allNodes g) := by
  intro e he ht fi hfi hopt
  have hin : e ∈ null_nodes (allNodes g) := by
    rw [null_nodes, List.mem_filter]
    exact ⟨he, by simp [isNullableNode, hfi, hopt]⟩
  refine ⟨hin, ?_⟩
  obtain ⟨hfname, hcf, _⟩ := allNodes_good m g hg e he
  rw [childFacts, ht] at hcf
  obtain ⟨c, hc1, hct, hcn, hcfull, hcfield⟩ := hcf
  obtain ⟨me, hme, href, hpar⟩ :=
    flattenNode_children none none g e he c (by rw [hc1]; exact List.mem_singleton_self c)
  have hmt : me.type = c.type := congrArg NRef.type href
  have hmf : me.field = c.field := congrArg NRef.field href
  have hmn : me.name = c.name := congrArg NRef.name href
  rw [hct] at hmt
  rw [hcfield, hfi] at hmf
  have hmemn : me ∈ null_nodes (allNodes g) := by
    rw [null_nodes, List.mem_filter]
    exact ⟨hme, by simp [isNullableNode, hmf, hopt]⟩
  refine ⟨me, hme, hmt, hmf, hpar, hmemn, ?_, ?_⟩
  · rw [printNullStateImpl]
    have h1 : me.name = fi.fname := by
      rw [hmn, hcn, (hfname fi hfi).symm]
    have h2 : parentStateD me = e.state := by
      rw [parentStateD, hpar]
      rfl
    rw [h1, h2]
  · rw [printNullImpl]
    exact List.mem_map_of_mem _ hmemn

/-- Witness for C9 on `O { optional Point p = 1 }`. -/
theorem claim_C9_w : exEoptKey ∈ null_nodes (allNodes exGopt) :=
  (claim_C9 exMopt exGopt (by rfl) exEoptKey (by decide) (by decide) exFiP
    (by decide) (by decide)).1

/-- Claim C1: the end_map dispatch case emitted for an `InsideMessage`
node's state sets `location` to 0 and pops (stack then empty) when the node
is the root or one level under it; otherwise it pops and sets `location`
to the parent's state when the grandparent is an `Array` node (the parent
being exactly that array's unique element child, i.e. the array-element
state is re-entered), else to the grandparent's state. -/
theorem claim_C1 (m : MsgD) (g : NodeT) (hg : parseMessageDesc m = Except.ok g) :
    ∀ e ∈ object_nodes (allNodes g),
      ((e.parent = none ∨ e.gparent = none) →
        printMapEndStateImpl e = EndMapCase.closeRoot e.state) ∧
      (∀ pref gref : NRef, e.parent = some pref → e.gparent = some gref →
        (gref.type = NodeType.ARRAY →
          printMapEndStateImpl e = EndMapCase.closeInner e.state pref.state ∧
          ∃ a ∈ allNodes g, a.state = gref.state ∧ a.type = NodeType.ARRAY ∧
            a.children.map NRef.state = [pref.state]) ∧
        (gref.type ≠ NodeType.ARRAY →
          printMapEndStateImpl e = EndMapCase.closeInner e.state gref.state)) := by
  intro e he
  rw [object_nodes, List.mem_filter] at he
  obtain ⟨heAll, heObj⟩ := he
  constructor
  · intro hor
    rcases hor with hp | hgp
    · simp [printMapEndStateImpl, hp]
    · cases hp2 : e.parent with
      | none => simp [printMapEndStateImpl, hp2]
      | some p0 => simp [printMapEndStateImpl, hp2, hgp]
  · intro pref gref hp hgp
    constructor
    · intro hat
      constructor
      · simp [printMapEndStateImpl, hp, hgp, hat]
      · obtain ⟨hbuilt, _, _, _, _⟩ := parseMessageDesc_facts m g hg
        rcases flattenNode_gpar none none g hbuilt e heAll gref hgp hat with h1 | h2 | h3
        · rw [h1] at hgp
          cases g
          simp [toENode] at hgp
        · obtain ⟨c, hc0, rfl⟩ := h2
          cases c
          simp [toENode] at hgp
        · obtain ⟨pref2, hp2, a, ha, h1, h2, h3⟩ := h3
          rw [hp] at hp2
          injection hp2 with hp2
          subst hp2
          exact ⟨a, ha, h2, h1, h3⟩
    · intro hnat
      simp [printMapEndStateImpl, hp, hgp, hnat]

/-- Witness for C1 on `RM { repeated Point ps }`: closing the inner object
re-enters the array-element state 3, and closing the root clears
`location`. -/
theorem claim_C1_w :
    printMapEndStateImpl exErmInside = EndMapCase.closeInner 4 3 ∧
      printMapEndStateImpl exErmRoot = EndMapCase.closeRoot 1 := by
  have h1 := claim_C1 exMrm exGrm (by rfl) exErmInside (by decide)
  have h2 := claim_C1 exMrm exGrm (by rfl) exErmRoot (by decide)
  refine ⟨?_, h2.1 (Or.inl (by decide))⟩
  exact ((h1.2 ⟨3, NodeType.OUTSIDE_OBJECT, ("ps"), (".ps[]"), some exFiPs⟩
    ⟨2, NodeType.ARRAY, ("ps"), (".ps"), some exFiPs⟩ (by decide) (by decide)).1
    (by decide)).1

/-- Lemma: `getNodeTypeForProtoType` returns `OUTSIDE_OBJECT` exactly for
`TYPE_MESSAGE`. -/
theorem protoMessage_iff (pt : PType) (ty : NodeType)
    (h : getNodeTypeForProtoType pt = .ok ty) :
    pt = PType.tMESSAGE ↔ ty = NodeType.OUTSIDE_OBJECT := by
  cases pt <;> simp_all [getNodeTypeForProtoType] <;> simp [← h]

mutual
/-- If processing a field succeeds, every wire type the walk reaches inside
it is supported. -/
theorem parseFieldDescRec_supported (pfx : String) (k : Nat) (f : FieldD) (n : NodeT)
    (k2 : Nat) (h : parseFieldDescRec pfx k f = .ok (n, k2)) :
    fieldSupported f = true := by
  obtain ⟨nm, pt, rep, opt, mty⟩ := f
  rw [parseFieldDescRec.eq_def] at h
  simp only [] at h
  cases hty : getNodeTypeForProtoType pt with
  | error e => rw [hty] at h; simp at h
  | ok ty =>
    rw [hty] at h
    simp only [] at h
    have hsupp : supportedType pt = true := by rw [supportedType, hty]
    rw [fieldSupported.eq_def]
    simp only [hsupp, Bool.true_and]
    by_cases hob : ty = NodeType.OUTSIDE_OBJECT
    · have hpm : pt = PType.tMESSAGE := (protoMessage_iff pt ty hty).mpr hob
      rw [if_pos hpm]
      subst hob
      by_cases hrep : rep = false
      · rw [if_pos hrep, if_pos rfl] at h
        cases mty with
        | none => simp at h
        | some md =>
          obtain ⟨mn, mfs⟩ := md
          simp only [] at h
          cases hrec : parseMessageDescRec (pfx ++ nm ++ (".")) (k + 2) mfs with
          | error e => rw [hrec] at h; simp at h
          | ok res =>
            obtain ⟨cs, kk⟩ := res
            show msgFieldsSupported (MsgD.mk mn mfs) = true
            rw [msgFieldsSupported.eq_def]
            exact parseMessageDescRec_supported _ _ _ _ _ hrec
      · rw [if_neg hrep, if_pos rfl] at h
        cases mty with
        | none => simp at h
        | some md =>
          obtain ⟨mn, mfs⟩ := md
          simp only [] at h
          cases hrec : parseMessageDescRec (pfx ++ nm ++ ("[]") ++ (".")) (k + 3) mfs with
          | error e => rw [hrec] at h; simp at h
          | ok res =>
            obtain ⟨cs, kk⟩ := res
            show msgFieldsSupported (MsgD.mk mn mfs) = true
            rw [msgFieldsSupported.eq_def]
            exact parseMessageDescRec_supported _ _ _ _ _ hrec
    · have hpm : pt ≠ PType.tMESSAGE := fun hp => hob ((protoMessage_iff pt ty hty).mp hp)
      rw [if_neg hpm]

/-- If the field loop succeeds, every field processed is supported. -/
theorem parseMessageDescRec_supported (pfx : String) (k : Nat) (fs : List FieldD)
    (ns : List NodeT) (k2 : Nat) (h : parseMessageDescRec pfx k fs = .ok (ns, k2)) :
    fieldsSupported fs = true := by
  cases fs with
  | nil => rw [fieldsSupported.eq_def]
  | cons f rest =>
    rw [parseMessageDescRec.eq_def] at h
    simp only [] at h
    cases hf : parseFieldDescRec pfx k f with
    | error e => rw [hf] at h; simp at h
    | ok res =>
      obtain ⟨n, k1⟩ := res
      rw [hf] at h
      simp only [] at h
      cases hrest : parseMessageDescRec pfx k1 rest with
      | error e => rw [hrest] at h; simp at h
      | ok res2 =>
        obtain ⟨ns2, kk⟩ := res2
        rw [fieldsSupported.eq_def]
        simp only [Bool.and_eq_true]
        exact ⟨parseFieldDescRec_supported _ _ _ _ _ hf,
          parseMessageDescRec_supported _ _ _ _ _ hrest⟩
end

/-- Counterexample for Claim C4 as stated: for
`message M { uint64 xs = 1; }` the builder fails, but the thrown message is
exactly "Unsupported protobuf type 4" — it carries the numeric type tag
only, not the field's full path (neither "xs" nor ".xs" occurs in it). -/
theorem claim_C4_cex :
    parseMessageDesc exMu64 =
      Except.error (("Unsupported protobuf type ") ++ toString (protoTag PType.tUINT64)) ∧
    ("Unsupported protobuf type ") ++ toString (protoTag PType.tUINT64) =
      ("Unsupported protobuf type 4") ∧
    msgContains ("Unsupported protobuf type 4") ("xs") = false ∧
    msgContains ("Unsupported protobuf type 4") ((".xs")) = false ∧
    msgContains ("Unsupported protobuf type 4") ("4") = true := by
  refine ⟨by rfl, by decide, by decide, by decide, by decide⟩

/-- Claim C4 (amended): the set of unsupported wire types is fixed and
enumerated — `uint64`, `bytes` and (through the `default:` case) `group`.
A field with an unsupported wire type makes the builder fail immediately
with `"Unsupported protobuf type " + tag` (tag only; the field path is not
included), and the builder never succeeds on a schema containing a
reachable unsupported field: success implies every reachable field is
supported. -/
theorem claim_C4 :
    (∀ t : PType, supportedType t = false ↔
      (t = PType.tUINT64 ∨ t = PType.tBYTES ∨ t = PType.tGROUP)) ∧
    (∀ (pfx : String) (k : Nat) (f : FieldD), supportedType (FieldD.fptype f) = false →
      parseFieldDescRec pfx k f =
        Except.error (("Unsupported protobuf type ") ++ toString (protoTag (FieldD.fptype f)))) ∧
    (∀ (m : MsgD) (g : NodeT), parseMessageDesc m = Except.ok g →
      msgFieldsSupported m = true) := by
  refine ⟨?_, ?_, ?_⟩
  · intro t
    cases t <;> decide
  · intro pfx k f hsup
    obtain ⟨nm, pt, rep, opt, mty⟩ := f
    rw [parseFieldDescRec.eq_def]
    simp only [FieldD.fptype] at hsup ⊢
    cases pt <;> simp_all [supportedType, getNodeTypeForProtoType]
  · intro m g h
    obtain ⟨mn, mfs⟩ := m
    rw [parseMessageDesc.eq_def] at h
    simp only [] at h
    cases hrec : parseMessageDescRec (".") 1 mfs with
    | error e => rw [hrec] at h; simp at h
    | ok res =>
      obtain ⟨cs, k2⟩ := res
      rw [msgFieldsSupported.eq_def]
      exact parseMessageDescRec_supported _ _ _ _ _ hrec

/-- Witness for the amended C4: a concrete `uint64` field fails with the
tag-only message, and a concrete supported schema reports all fields
supported. -/
theorem claim_C4_w :
    supportedType PType.tUINT64 = false ∧
    parseFieldDescRec (".") 1 (FieldD.mk ("xs") PType.tUINT64 false false none) =
      Except.error (("Unsupported protobuf type ") ++ toString (protoTag PType.tUINT64)) ∧
    msgFieldsSupported exMbd = true := by
  refine ⟨by decide, ?_, ?_⟩
  · exact claim_C4.2.1 (".") 1 (FieldD.mk ("xs") PType.tUINT64 false false none) (by decide)
  · exact claim_C4.2.2 exMbd exGbd (by rfl)

/-- Two strings with different characters at a common index stay different
under arbitrary appends. -/
theorem append_ne_of_ne_at (s t a b : String) (i : Nat)
    (hi : i < s.data.length) (hj : i < t.data.length)
    (h : (s.data)[i]? ≠ (t.data)[i]?) : s ++ a ≠ t ++ b := by
  intro he
  apply h
  have hd : (s ++ a).data = (t ++ b).data := congrArg String.data he
  rw [String.data_append, String.data_append] at hd
  have h1 : (s.data ++ a.data)[i]? = (s.data)[i]? := by
    rw [List.getElem?_append, if_pos hi]
  have h2 : (t.data ++ b.data)[i]? = (t.data)[i]? := by
    rw [List.getElem?_append, if_pos hj]
  rw [← h1, ← h2, hd]

/-- Counterexample for Claim C3 as stated: on a schema-open failure the
`Graph` constructor throws `std::runtime_error`; `main` has no try/catch,
so the exception propagates out and the process is aborted by
`std::terminate` — it does not exit cleanly with code 1. -/
theorem claim_C3_cex :
    mainImpl 4 ("f.proto") ("pkg.M") LoadOutcome.openFail true true =
      ProcOutcome.abortedUncaught (("Unable to open proto file ") ++ ("f.proto")) ∧
    mainImpl 4 ("f.proto") ("pkg.M") LoadOutcome.openFail true true ≠
      ProcOutcome.exited 1 :=
  ⟨by rfl, by decide⟩

/-- Claim C3 (amended): the generator returns 0 on success and exits with
code 1 (printing usage) only for a wrong argument count.  Schema
open/parse/build failures, an unresolvable root message, and unsupported
wire types each throw a `std::runtime_error` with a distinct message,
which is uncaught in `main` and aborts the process rather than exiting
with code 1; an output-file open failure is never detected (the `fopen`
result is passed unchecked to `fprintf`, which is undefined behaviour). -/
theorem claim_C3 :
    (∀ (argc : Nat) (fname msgName : String) (lo : LoadOutcome) (ho so : Bool),
      argc ≠ 4 → mainImpl argc fname msgName lo ho so = ProcOutcome.exited 1) ∧
    (∀ (fname msgName : String) (m : MsgD) (g : NodeT),
      parseMessageDesc m = Except.ok g →
      mainImpl 4 fname msgName (LoadOutcome.loaded m) true true = ProcOutcome.exited 0) ∧
    (∀ (fname msgName : String),
      mainImpl 4 fname msgName LoadOutcome.openFail true true =
        ProcOutcome.abortedUncaught (("Unable to open proto file ") ++ fname) ∧
      mainImpl 4 fname msgName LoadOutcome.parseFail true true =
        ProcOutcome.abortedUncaught (("Unable to parse proto file ") ++ fname) ∧
      mainImpl 4 fname msgName LoadOutcome.buildFail true true =
        ProcOutcome.abortedUncaught (("Unable to load proto file ") ++ fname) ∧
      mainImpl 4 fname msgName LoadOutcome.msgNotFound true true =
        ProcOutcome.abortedUncaught (("Unable to find message type ") ++ msgName)) ∧
    (∀ (fname msgName : String) (m : MsgD) (e : String),
      parseMessageDesc m = Except.error e →
      mainImpl 4 fname msgName (LoadOutcome.loaded m) true true =
        ProcOutcome.abortedUncaught e) ∧
    (∀ (fname msgName : String) (m : MsgD) (g : NodeT) (so : Bool),
      parseMessageDesc m = Except.ok g →
      mainImpl 4 fname msgName (LoadOutcome.loaded m) false so =
        ProcOutcome.undefinedBehavior ("fprintf to NULL FILE star for the emitted header")) ∧
    (∀ (fname msgName : String),
      (("Unable to open proto file ") ++ fname ≠ ("Unable to parse proto file ") ++ fname) ∧
      (("Unable to open proto file ") ++ fname ≠ ("Unable to load proto file ") ++ fname) ∧
      (("Unable to open proto file ") ++ fname ≠ ("Unable to find message type ") ++ msgName) ∧
      (("Unable to parse proto file ") ++ fname ≠ ("Unable to load proto file ") ++ fname) ∧
      (("Unable to parse proto file ") ++ fname ≠ ("Unable to find message type ") ++ msgName) ∧
      (("Unable to load proto file ") ++ fname ≠ ("Unable to find message type ") ++ msgName)) := by
  refine ⟨?_, ?_, ?_, ?_, ?_, ?_⟩
  · intro argc fname msgName lo ho so hne
    rw [mainImpl, if_pos hne]
  · intro fname msgName m g hm
    rw [mainImpl, if_neg (by omega)]
    simp only [graphCtor, hm]
    rfl
  · intro fname msgName
    refine ⟨by rfl, by rfl, by rfl, by rfl⟩
  · intro fname msgName m e hm
    rw [mainImpl, if_neg (by omega)]
    simp only [graphCtor, hm]
  · intro fname msgName m g so hm
    rw [mainImpl, if_neg (by omega)]
    simp only [graphCtor, hm]
    rfl
  · intro fname msgName
    refine ⟨?_, ?_, ?_, ?_, ?_, ?_⟩ <;>
      exact append_ne_of_ne_at _ _ _ _ 10 (by decide) (by decide) (by decide)

/-- Witness for the amended C3 at concrete inputs. -/
theorem claim_C3_w :
    mainImpl 5 ("f.proto") ("M") LoadOutcome.openFail true true = ProcOutcome.exited 1 ∧
    mainImpl 4 ("f.proto") ("M") (LoadOutcome.loaded exMab) true true =
      ProcOutcome.exited 0 := by
  refine ⟨claim_C3.1 5 ("f.proto") ("M") LoadOutcome.openFail true true (by omega), ?_⟩
  exact claim_C3.2.1 ("f.proto") ("M") exMab exGab (by rfl)

/-- Claim C5 evaluation (the code lacks the claimed behaviour): for
`message M { int32 a; int32 b; }` and a hash function on which the two
sibling keys collide, the generator still succeeds and
`printMapKeyImpl` emits the inner switch for the root state with two
identical case labels; no collision check and no failure path exists in
the emitter. -/
theorem claim_C5_eval :
    parseMessageDesc exMab = Except.ok exGab ∧
    printMapKeyImpl (fun _ => 0) (allNodes exGab) = [(1, [⟨0, 2⟩, ⟨0, 3⟩])] ∧
    ((printMapKeyImpl (fun _ => 0) (allNodes exGab)).map
      (fun pc => pc.2.map KeyCase.hashLabel)) = [[0, 0]] ∧
    ¬ ([0, 0] : List Nat).Nodup :=
  ⟨by rfl, by rfl, by rfl, by decide⟩

/-- No emitted SAX callback and no API operation modifies
`state.config`. -/
theorem stepOp_config (h : String → Nat) (tb : RunTables) (op : ApiOp)
    (s s' : ParserState) (hstep : stepOp h tb op s = some s') :
    s'.config = s.config := by
  cases op with
  | reset =>
    simp only [stepOp, Option.some.injEq] at hstep
    subst hstep
    rfl
  | getErrorOp =>
    simp only [stepOp, Option.some.injEq] at hstep
    subst hstep
    rfl
  | freeErrorOp =>
    simp only [stepOp, Option.some.injEq] at hstep
    subst hstep
    rfl
  | sax ev =>
    cases ev <;> simp only [stepOp, stepEvent] at hstep <;> repeat' split at hstep
    all_goals
      first
      | (simp only [Option.some.injEq] at hstep; subst hstep; rfl)
      | simp at hstep

theorem runOps_config (h : String → Nat) (tb : RunTables) (ops : List ApiOp)
    (s s' : ParserState) (hrun : runOps h tb ops s = some s') :
    s'.config = s.config := by
  induction ops generalizing s with
  | nil =>
    rw [runOps.eq_def] at hrun
    simp only [Option.some.injEq] at hrun
    subst hrun
    rfl
  | cons op ops ih =>
    rw [runOps.eq_def] at hrun
    simp only [] at hrun
    cases hstep : stepOp h tb op s with
    | none => rw [hstep] at hrun; simp at hrun
    | some s1 =>
      rw [hstep] at hrun
      rw [ih s1 hrun, stepOp_config h tb op s s1 hstep]

/-- Claim C10: the emitted `init` sets `config.checkInitialized = true`, no
operation of the emitted API (SAX-driven chunk feeding, `reset`,
`get_error`, `free_error`) can disable it, so in every state reachable
from `init` — including the one `easy` creates through `init` — the
end_map callback invokes the initialization check. -/
theorem claim_C10 (h : String → Nat) (root : NodeT) (ops : List ApiOp)
    (s' : ParserState)
    (hrun : runOps h (tablesOf h root) ops initParserState = some s') :
    initParserState.config.checkInit = true ∧
    s'.config.checkInit = true ∧ mapEndRunsInitCheck s' = true := by
  have hc := runOps_config h (tablesOf h root) ops initParserState s' hrun
  exact ⟨rfl, by rw [hc]; rfl, by rw [mapEndRunsInitCheck, hc]; rfl⟩


/-- Witness for C10: a concrete run (a `reset` call) on the parser
generated for `M { int32 a; int32 b; }`. -/
theorem claim_C10_w :
    initParserState.config.checkInit = true ∧
    (⟨⟨true⟩, 0, 0⟩ : ParserState).config.checkInit = true ∧
    mapEndRunsInitCheck ⟨⟨true⟩, 0, 0⟩ = true :=
  claim_C10 (fun _ => 0) exGab [ApiOp.reset] ⟨⟨true⟩, 0, 0⟩ (by rfl)

end Protog
